import Mathlib

/-!
# CustomTree: a two-level item tree with check and selection propagation

Shallow embedding of `src/base/customtree.cpp` (class `ct::CustomTree`, a `QTreeWidget`).

The state of the widget is the list of its top-level items; each top-level item owns the
list of its child items. Every item carries the data the code reads and writes: its text,
its `Qt::CheckState` in column 0 and its selected flag.

Qt calls are modelled by their documented effect on that state:

* `topLevelItem(i)`, `child(i)`, `takeTopLevelItem(i)`, `takeChild(i)` answer `nullptr`
  for an index outside the list; dereferencing `nullptr` is a fault, modelled as `none`.
* `new QTreeWidgetItem(tree)` : "Constructs a tree widget item of the specified type and
  appends it to the items in the given parent." The new item is a top-level item from its
  construction on.
* `QTreeWidgetItem::insertChild` : "If the child has already been inserted somewhere else
  it won't be inserted again."  `QTreeWidget::insertTopLevelItem` : "If the item has
  already been inserted somewhere else it won't be inserted."  `addChild` and
  `addTopLevelItem` are the insertions at the end of the list.
* `setCheckState` stores the state (no item has `Qt::ItemIsAutoTristate`).
* `setCurrentItem(item)` selects the item with the default command of the extended
  selection mode (clear, then select).

Signal delivery is not modelled: the two handlers are functions of the state, run where the
code calls them and where a theorem applies them.
-/

namespace ct

/-- Check state of an item in column 0 (`Qt::CheckState`). -/
inductive CheckState where
  | Unchecked
  | PartiallyChecked
  | Checked
  deriving DecidableEq, Repr

/-- Modelled from the spec: the coordinate type `Index` is declared in
`base/customtree.h`, which is not part of the sources; it is the pair `(row, col)` of
two `int`s, compared componentwise. -/
structure Index where
  row : Int
  col : Int
  deriving DecidableEq, Repr

/-- Modelled from the spec: the enumeration `sort_type` is declared in
`base/customtree.h`; its four values are the four ordering policies. -/
inductive sort_type where
  | ASCENDING
  | DESCENDING
  | PARENTFIRST
  | CHILDFIRST
  deriving DecidableEq, Repr

/-- Child item (second level of the tree). -/
structure Leaf where
  text : String
  checkState : CheckState
  selected : Bool
  deriving DecidableEq, Repr

/-- Top-level item together with the child items it owns. -/
structure Group where
  text : String
  checkState : CheckState
  selected : Bool
  children : List Leaf
  deriving DecidableEq, Repr

/-- The widget state: the top-level items in order. -/
abbrev Forest := List Group

/-- Pointer to an item of the tree (`QTreeWidgetItem*`): a top-level item, or the child at
position `col` below the top-level item at position `row`. The handlers receive pointers
to items of the tree; for a pointer that designates no item they leave the state as it
is. -/
inductive ItemPtr where
  | top (row : Nat)
  | sub (row col : Nat)
  deriving DecidableEq, Repr

/-! ## Qt primitives -/

/-- Number of top-level items (`QTreeWidget::topLevelItemCount`). -/
def topLevelItemCount (f : Forest) : Int := f.length

/-- Top-level item at position `i`, `none` standing for `nullptr`
(`QTreeWidget::topLevelItem`). -/
def topLevelItem (f : Forest) (i : Int) : Option Group :=
  if 0 ≤ i then f[i.toNat]? else none

/-- Number of children of an item (`QTreeWidgetItem::childCount`). -/
def Group.childCount (g : Group) : Int := g.children.length

/-- Child at position `j`, `none` standing for `nullptr` (`QTreeWidgetItem::child`). -/
def Group.child (g : Group) (j : Int) : Option Leaf :=
  if 0 ≤ j then g.children[j.toNat]? else none

/-- Apply `k` to the top-level item at position `r`. -/
def modifyTop (f : Forest) (r : Nat) (k : Group → Group) : Forest :=
  List.modify k r f

/-- Apply `k` to the child `c` of the top-level item `r`. -/
def modifySub (f : Forest) (r c : Nat) (k : Leaf → Leaf) : Forest :=
  modifyTop f r (fun g => { g with children := List.modify k c g.children })

/-- Store a text in the item (`QTreeWidgetItem::setText(0, s)`). -/
def setText (f : Forest) (item : ItemPtr) (s : String) : Forest :=
  match item with
  | .top r => modifyTop f r (fun g => { g with text := s })
  | .sub r c => modifySub f r c (fun l => { l with text := s })

/-- Store a check state in the item (`QTreeWidgetItem::setCheckState(0, st)`). -/
def setCheckState (f : Forest) (item : ItemPtr) (st : CheckState) : Forest :=
  match item with
  | .top r => modifyTop f r (fun g => { g with checkState := st })
  | .sub r c => modifySub f r c (fun l => { l with checkState := st })

/-- Store the selected flag of the item (`QTreeWidgetItem::setSelected`). -/
def setSelected (f : Forest) (item : ItemPtr) (b : Bool) : Forest :=
  match item with
  | .top r => modifyTop f r (fun g => { g with selected := b })
  | .sub r c => modifySub f r c (fun l => { l with selected := b })

/-- Deselect every item of the tree. -/
def clearSelection (f : Forest) : Forest :=
  f.map (fun g =>
    { g with selected := false,
             children := g.children.map (fun l => { l with selected := false }) })

/-- Make `item` the current item (`QTreeWidget::setCurrentItem`): with the extended
selection mode set in the constructor, the selection becomes this item alone. -/
def setCurrentItem (f : Forest) (item : ItemPtr) : Forest :=
  setSelected (clearSelection f) item true

/-- A freshly constructed item: no text, unchecked, unselected, no children. -/
def blankItem : Group :=
  { text := "", checkState := .Unchecked, selected := false, children := [] }

/-- A top-level item without children, unselected, with text `s` and state `Checked`: what
a fresh item is after `setText(0, s)` and `setCheckState(0, Qt::Checked)`. -/
def checkedItem (s : String) : Group :=
  { text := s, checkState := .Checked, selected := false, children := [] }

/-- Construct an item on the tree, `new QTreeWidgetItem(this)`: Qt appends the fresh item to
the top-level items. The result is the new state and the pointer to the new item. -/
def newItem (f : Forest) : Forest × ItemPtr :=
  (f ++ [blankItem], .top f.length)

/-- Insert `child` at position `index` below `parent`
(`QTreeWidgetItem::insertChild(index, child)`). Every `ItemPtr` designates an item that is
already in the tree, and for such a child Qt leaves the tree as it is. -/
def insertChild (f : Forest) (_parent : ItemPtr) (_index : Int) (_child : ItemPtr) : Forest :=
  f

/-- Append `child` below `parent` (`QTreeWidgetItem::addChild`), which is `insertChild` at
the end of the list of children. -/
def addChild (f : Forest) (parent : ItemPtr) (child : ItemPtr) : Forest :=
  match parent with
  | .top r =>
    match f[r]? with
    | some g => insertChild f parent g.childCount child
    | none => f
  | .sub _ _ => insertChild f parent 0 child

/-- Append `item` to the top-level items (`QTreeWidget::addTopLevelItem`), which is
`insertTopLevelItem` at the end; for an item already in the tree Qt leaves the tree as it
is. -/
def addTopLevelItem (f : Forest) (_item : ItemPtr) : Forest :=
  f

/-- Remove the top-level item at position `i` when there is one
(`QTreeWidget::takeTopLevelItem`). -/
def takeTopLevelItem (f : Forest) (i : Int) : Forest :=
  if 0 ≤ i then f.eraseIdx i.toNat else f

/-- Remove the child at position `j` when there is one (`QTreeWidgetItem::takeChild`). -/
def Group.takeChild (g : Group) (j : Int) : Group :=
  if 0 ≤ j then { g with children := g.children.eraseIdx j.toNat } else g

/-! ## The member functions of `CustomTree` -/

namespace CustomTree

/-- Coordinates of all child items, row by row (`getAllIndexs`, lines 52-59). -/
def getAllIndexs (f : Forest) : List Index :=
  (List.range f.length).flatMap (fun i =>
    match f[i]? with
    | some p => (List.range p.children.length).map (fun j => Index.mk i j)
    | none => [])

/-- Coordinates of the child items whose state is `Checked`, row by row
(`getCheckedIndexs`, lines 28-39). -/
def getCheckedIndexs (f : Forest) : List Index :=
  (List.range f.length).flatMap (fun i =>
    match f[i]? with
    | some parent =>
      ((List.range parent.children.length).filter (fun j =>
        match parent.children[j]? with
        | some c => decide (c.checkState = .Checked)
        | none => false)).map (fun j => Index.mk i j)
    | none => [])

/-- Validity test of a coordinate (`indexIsValid`, lines 61-65). The four conjuncts are
evaluated left to right and the evaluation stops at the first false one; the result is
`none` when a `nullptr` is dereferenced. -/
def indexIsValid (f : Forest) (index : Index) : Option Bool :=
  if index.row > -1 then
    if index.row < topLevelItemCount f then
      if index.col > -1 then
        (topLevelItem f index.row).map (fun p => decide (index.col < p.childCount))
      else some false
    else some false
  else some false

/-- Insertion (`addItem`, lines 67-97); `none` when a `nullptr` is dereferenced. The
statements are taken in the order of the source: each `new QTreeWidgetItem(this)` is a
`newItem`, so the item sits at the end of the top level before `addChild`, `insertChild` or
`addTopLevelItem` is reached, and `topLevelItem(index.row)` of the second branch is read
after the new item was appended. The icons and `expandItem` touch no data of the state. -/
def addItem (f : Forest) (index : Index) (parent_id child_id : String) (selected : Bool) :
    Option Forest :=
  if index.row ≤ -1 ∨ index.row > topLevelItemCount f then
    let (f1, parent) := newItem f
    let (f2, child) := newItem f1
    let f3 := setText f2 parent parent_id
    let f4 := setCheckState f3 parent .Checked
    let f5 := setText f4 child child_id
    let f6 := setCheckState f5 child .Checked
    let f7 := addChild f6 parent child
    let f8 := addTopLevelItem f7 parent
    some (if selected then setCurrentItem f8 child else f8)
  else
    let (f1, child) := newItem f
    let f2 := setText f1 child child_id
    let f3 := setCheckState f2 child .Checked
    (topLevelItem f3 index.row).map (fun p =>
      let f4 :=
        if index.col > -1 ∧ index.col < p.childCount then
          insertChild f3 (.top index.row.toNat) 0 child
        else
          addChild f3 (.top index.row.toNat) child
      if selected then setCurrentItem f4 child else f4)

/-- Removal (`removeItem`, lines 99-106); `none` when a `nullptr` is dereferenced. -/
def removeItem (f : Forest) (index : Index) : Option Forest :=
  (indexIsValid f index).bind (fun valid =>
    if !valid then some f
    else
      (topLevelItem f index.row).map (fun p =>
        if p.childCount = 1 then
          takeTopLevelItem f index.row
        else
          modifyTop f index.row.toNat (fun g => g.takeChild index.col)))

/-- Handler of a click on `item` (`itemClickedEvent`, lines 176-212). For a top-level item
the children take over its state when that is `Checked` or `Unchecked`; for a child the
state of the parent is recomputed by the scan that stops at the first child in the
opposite state. -/
def itemClickedEvent (f : Forest) (item : ItemPtr) : Forest :=
  match item with
  | .top r =>
    modifyTop f r (fun g =>
      { g with children := g.children.map (fun c =>
          if g.checkState = .Checked then { c with checkState := .Checked }
          else if g.checkState = .Unchecked then { c with checkState := .Unchecked }
          else c) })
  | .sub r c =>
    match (f[r]?).bind (fun g => g.children[c]?) with
    | none => f
    | some it =>
      modifyTop f r (fun parent =>
        let cout := parent.children.length
        if it.checkState = .Checked then
          let i := parent.children.findIdx (fun x => decide (x.checkState = .Unchecked))
          if i = cout then { parent with checkState := .Checked }
          else { parent with checkState := .PartiallyChecked }
        else
          let i := parent.children.findIdx (fun x => decide (x.checkState = .Checked))
          if i = cout then { parent with checkState := .Unchecked }
          else { parent with checkState := .PartiallyChecked })

/-- Setting the check state of a child (`setItemChecked`, lines 108-117); `none` when a
`nullptr` is dereferenced. -/
def setItemChecked (f : Forest) (index : Index) (checked : Bool) : Option Forest :=
  (indexIsValid f index).bind (fun valid =>
    if !valid then some f
    else
      (topLevelItem f index.row).bind (fun p =>
        (p.child index.col).map (fun _ =>
          let item := ItemPtr.sub index.row.toNat index.col.toNat
          let f1 :=
            if checked then setCheckState f item .Checked
            else setCheckState f item .Unchecked
          itemClickedEvent f1 item)))

/-- Comparison handed to `std::sort` for `ASCENDING` (lines 126-127). -/
def ascLess (a b : Index) : Bool :=
  decide (a.row < b.row) || (decide (a.row = b.row) && decide (a.col < b.col))

/-- Comparison handed to `std::sort` for `DESCENDING` (lines 131-132). -/
def descLess (a b : Index) : Bool :=
  decide (a.row > b.row) || (decide (a.row = b.row) && decide (a.col > b.col))

/-- Sorting with a comparison `less` (`std::sort`): the outcome holds the same elements and
no element is `less` than one placed before it. -/
def stdSort (less : Index → Index → Bool) (l : List Index) : List Index :=
  l.insertionSort (fun a b => less b a = false)

/-- One round of the `PARENTFIRST` loop (lines 137-147): `indexs` is the whole input, `res`
the result so far and `i` the element visited. -/
def parentFirstStep (f : Forest) (indexs : List Index) (res : List Index) (i : Index) :
    Option (List Index) :=
  if i.col ≠ -1 then
    if Index.mk i.row (-1) ∈ indexs then some res else some (res ++ [i])
  else
    (topLevelItem f i.row).map (fun parent =>
      res ++ (List.range parent.children.length).map (fun j => Index.mk i.row j))

/-- Ordering of a batch of coordinates (`getSortedIndexs`, lines 119-156); `none` when a
`nullptr` is dereferenced. -/
def getSortedIndexs (f : Forest) (type : sort_type) (indexs : List Index) :
    Option (List Index) :=
  match type with
  | .ASCENDING => some (stdSort ascLess indexs)
  | .DESCENDING => some (stdSort descLess indexs)
  | .PARENTFIRST => indexs.foldlM (parentFirstStep f indexs) []
  | .CHILDFIRST => some (indexs.filter (fun i => decide (i.col ≠ -1)))

/-- One round of the loop of `itemSelectionChangedEvent` (lines 163-172) for the selected
item `item`. -/
def selectionStep (f : Forest) (item : ItemPtr) : Forest :=
  match item with
  | .top r =>
    modifyTop f r (fun g =>
      { g with children := g.children.map (fun c => { c with selected := true }) })
  | .sub r _ =>
    modifyTop f r (fun parent =>
      let cout := parent.children.length
      let i := parent.children.findIdx (fun x => !x.selected)
      if i = cout then { parent with selected := true } else parent)

/-- The selected items in tree order; `QTreeWidget::selectedItems` returns them in an
order that depends on how the selection was made. -/
def selectedItems (f : Forest) : List ItemPtr :=
  (List.range f.length).flatMap (fun r =>
    match f[r]? with
    | some g =>
      (if g.selected then [ItemPtr.top r] else []) ++
        ((List.range g.children.length).filter (fun c =>
          match g.children[c]? with
          | some l => l.selected
          | none => false)).map (fun c => ItemPtr.sub r c)
    | none => [])

/-- Handler of a change of the selection, run on the list `items` that `selectedItems()`
returned (`itemSelectionChangedEvent`, lines 158-174). -/
def itemSelectionChangedEventOn (f : Forest) (items : List ItemPtr) : Forest :=
  items.foldl selectionStep f

/-- Handler of a change of the selection with the selected items visited in tree order. -/
def itemSelectionChangedEvent (f : Forest) : Forest :=
  itemSelectionChangedEventOn f (selectedItems f)

/-! ## Notions of the specification -/

/-- Number of groups of the forest. -/
def groupCount (f : Forest) : Int := f.length

/-- Number of leaves of the group at position `row`; zero when there is no such group. -/
def leafCount (f : Forest) (row : Int) : Int :=
  match topLevelItem f row with
  | some g => g.childCount
  | none => 0

/-- Total number of leaves of the forest. -/
def leafTotal (f : Forest) : Nat :=
  (f.map (fun g => g.children.length)).sum

/-- Tri-state derived from the flags of the leaves, in the words of the specification:
all checked gives `Checked`, all unchecked gives `Unchecked`, mixed gives
`PartiallyChecked`. -/
def derivedTriState (leaves : List Leaf) : CheckState :=
  if leaves.all (fun l => decide (l.checkState = .Checked)) then .Checked
  else if leaves.all (fun l => decide (l.checkState = .Unchecked)) then .Unchecked
  else .PartiallyChecked

/-- Every leaf flag of the forest is `Checked` or `Unchecked`. -/
def leavesBinary (f : Forest) : Prop :=
  ∀ g ∈ f, ∀ l ∈ g.children, l.checkState = .Checked ∨ l.checkState = .Unchecked

/-- Tri-state consistency: the stored state of every group is the one derived from its
leaves. -/
def triStateConsistent (f : Forest) : Prop :=
  ∀ g ∈ f, g.checkState = derivedTriState g.children

instance (f : Forest) : Decidable (leavesBinary f) := by
  unfold leavesBinary; infer_instance

instance (f : Forest) : Decidable (triStateConsistent f) := by
  unfold triStateConsistent; infer_instance

/-- Selected flag of the group at position `r`; false when there is no such group. -/
def groupSelected (f : Forest) (r : Nat) : Bool :=
  match f[r]? with
  | some g => g.selected
  | none => false

/-- Number of leaves of the group at position `r`; zero when there is no such group. -/
def childCountAt (f : Forest) (r : Nat) : Nat :=
  match f[r]? with
  | some g => g.children.length
  | none => 0

/-- Selected flag of the leaf at `(r, c)`; false when there is no such leaf. -/
def leafSelected (f : Forest) (r c : Nat) : Bool :=
  match f[r]? with
  | some g =>
    match g.children[c]? with
    | some l => l.selected
    | none => false
  | none => false

/-- All leaves of the group at `r` are selected. -/
def allLeavesSelected (f : Forest) (r : Nat) : Prop :=
  ∀ c, c < childCountAt f r → leafSelected f r c = true

/-- What a round of the selection handler does to a visited top-level item. -/
def selectAllChildren (g : Group) : Group :=
  { g with children := g.children.map (fun c => { c with selected := true }) }

/-- What a round of the selection handler does to the parent of a visited child. -/
def selectIfAllChildren (parent : Group) : Group :=
  if parent.children.findIdx (fun x => !x.selected) = parent.children.length then
    { parent with selected := true }
  else parent

/-- Block that the element `i` of the input `indexs` contributes under the parent-first
policy, in the words of the specification: nothing for a leaf coordinate whose group marker
is in the input, the coordinate itself for any other leaf coordinate, and all the leaf
coordinates of the group for a marker `(row, -1)`. -/
def parentFirstBlock (f : Forest) (indexs : List Index) (i : Index) : List Index :=
  if i.col ≠ -1 then
    if Index.mk i.row (-1) ∈ indexs then [] else [i]
  else
    (List.range (leafCount f i.row).toNat).map (fun j => Index.mk i.row j)

/-! ## Example forests -/

/-- One group holding L0 (checked), L1 (checked) and L2 (unchecked). -/
def scenarioMixed : Forest :=
  [{ text := "G0", checkState := .Checked, selected := false,
     children := [{ text := "L0", checkState := .Checked, selected := false },
                  { text := "L1", checkState := .Checked, selected := false },
                  { text := "L2", checkState := .Unchecked, selected := false }] }]

/-- Group 0 with two leaves and group 1 with one leaf, all checked, nothing selected. -/
def scenarioTwoGroups : Forest :=
  [{ text := "G0", checkState := .Checked, selected := false,
     children := [{ text := "L0", checkState := .Checked, selected := false },
                  { text := "L1", checkState := .Checked, selected := false }] },
   { text := "G1", checkState := .Checked, selected := false,
     children := [{ text := "L2", checkState := .Checked, selected := false }] }]

/-- Group 0 selected with one of its two leaves, group 1 unselected with its leaf
selected. -/
def scenarioSelection : Forest :=
  [{ text := "G0", checkState := .Checked, selected := true,
     children := [{ text := "L0", checkState := .Checked, selected := false },
                  { text := "L1", checkState := .Checked, selected := true }] },
   { text := "G1", checkState := .Checked, selected := false,
     children := [{ text := "L2", checkState := .Checked, selected := true }] }]

/-- One consistent group, partially checked, holding a checked and an unchecked leaf. -/
def scenarioPartial : Forest :=
  [{ text := "G0", checkState := .PartiallyChecked, selected := false,
     children := [{ text := "L0", checkState := .Checked, selected := false },
                  { text := "L1", checkState := .Unchecked, selected := false }] }]

/-! ## Further notions of the specification -/

/-- Lexicographic order on coordinates with the row first, in the words of the
specification: `a` may stand before `b`. -/
def lexLe (a b : Index) : Prop :=
  a.row < b.row ∨ (a.row = b.row ∧ a.col ≤ b.col)

/-- Strict lexicographic order on coordinates with the row first. -/
def lexLt (a b : Index) : Prop :=
  a.row < b.row ∨ (a.row = b.row ∧ a.col < b.col)

instance (a b : Index) : Decidable (lexLe a b) := by
  unfold lexLe; infer_instance

instance (a b : Index) : Decidable (lexLt a b) := by
  unfold lexLt; infer_instance

/-- Every group of the forest has at least one leaf. -/
def everyGroupHasLeaf (f : Forest) : Prop :=
  ∀ g ∈ f, g.children ≠ []

instance (f : Forest) : Decidable (everyGroupHasLeaf f) := by
  unfold everyGroupHasLeaf; infer_instance

/-- Shape and labels of the forest: the label of every group with the labels of its
leaves, in order. -/
def labelsOf (f : Forest) : List (String × List String) :=
  f.map (fun g => (g.text, g.children.map (fun l => l.text)))

/-- Selection flags of the forest: the flag of every group with the flags of its leaves. -/
def selectionOf (f : Forest) : List (Bool × List Bool) :=
  f.map (fun g => (g.selected, g.children.map (fun l => l.selected)))

/-- Stored check state of the group at position `r`, when there is one. -/
def groupCheckAt (f : Forest) (r : Nat) : Option CheckState :=
  (f[r]?).map (fun g => g.checkState)

/-- Check flag of the leaf at `(r, c)`, when there is one. -/
def leafCheckAt (f : Forest) (r c : Nat) : Option CheckState :=
  (f[r]?).bind (fun g => (g.children[c]?).map (fun l => l.checkState))

/-- The coordinate designates a leaf whose check flag is `Checked`. -/
def leafCheckedAt (f : Forest) (i : Index) : Bool :=
  match topLevelItem f i.row with
  | some g =>
    match g.child i.col with
    | some l => decide (l.checkState = .Checked)
    | none => false
  | none => false

/-- A partially checked group holding a checked leaf and an unchecked, selected leaf. -/
def scenarioPartialGroup : Group :=
  { text := "G0", checkState := .PartiallyChecked, selected := false,
    children := [{ text := "L0", checkState := .Checked, selected := false },
                 { text := "L1", checkState := .Unchecked, selected := true }] }

/-- The partially checked group followed by a checked, selected group holding one checked
leaf. -/
def scenarioTriState : Forest :=
  [scenarioPartialGroup,
   { text := "G1", checkState := .Checked, selected := true,
     children := [{ text := "L2", checkState := .Checked, selected := false }] }]

/-! ## Auxiliary lemmas -/

theorem topLevelItem_natCast (f : Forest) (r : Nat) : topLevelItem f (r : Int) = f[r]? := by
  simp [topLevelItem]

theorem topLevelItem_of_nonneg {f : Forest} {i : Int} (h : 0 ≤ i) :
    topLevelItem f i = f[i.toNat]? := by
  simp [topLevelItem, h]

theorem topLevelItem_of_neg {f : Forest} {i : Int} (h : i < 0) :
    topLevelItem f i = none := by
  simp [topLevelItem]; omega

theorem indexIsValid_eq (f : Forest) (index : Index) :
    indexIsValid f index =
      some (decide (0 ≤ index.row ∧ index.row < groupCount f ∧
        0 ≤ index.col ∧ index.col < leafCount f index.row)) := by
  unfold indexIsValid groupCount topLevelItemCount leafCount
  by_cases h1 : index.row > -1
  · by_cases h2 : index.row < (f.length : Int)
    · by_cases h3 : index.col > -1
      · have hr : 0 ≤ index.row := by omega
        have hlt : index.row.toNat < f.length := by omega
        have hg : topLevelItem f index.row = some f[index.row.toNat] := by
          rw [topLevelItem_of_nonneg hr]; exact List.getElem?_eq_getElem hlt
        have hc : 0 ≤ index.col := by omega
        simp [h1, h2, h3, hg, hr, hc]
      · have hc : ¬ 0 ≤ index.col := by omega
        simp [h1, h2, h3, hc]
    · simp [h1, h2]
  · have hr : ¬ 0 ≤ index.row := by omega
    simp [h1, hr]

theorem indexIsValid_true {f : Forest} {index : Index}
    (h : indexIsValid f index = some true) :
    ∃ (r c : Nat) (g : Group) (l : Leaf), index = Index.mk (r : Int) (c : Int) ∧ f[r]? = some g ∧
      g.children[c]? = some l := by
  rw [indexIsValid_eq] at h
  simp only [Option.some.injEq, decide_eq_true_eq] at h
  obtain ⟨h1, h2, h3, h4⟩ := h
  unfold groupCount at h2
  have hlt : index.row.toNat < f.length := by omega
  have hg : topLevelItem f index.row = some f[index.row.toNat] := by
    rw [topLevelItem_of_nonneg h1]; exact List.getElem?_eq_getElem hlt
  simp only [leafCount, hg, Group.childCount] at h4
  have hlt2 : index.col.toNat < (f[index.row.toNat]).children.length := by omega
  refine ⟨index.row.toNat, index.col.toNat, f[index.row.toNat],
    (f[index.row.toNat]).children[index.col.toNat], ?_, List.getElem?_eq_getElem hlt, List.getElem?_eq_getElem hlt2⟩
  cases index with
  | mk row col =>
    simp only [Index.mk.injEq]
    constructor <;> simp_all

theorem indexIsValid_of_getElem {f : Forest} {r c : Nat} {g : Group} {l : Leaf}
    (hg : f[r]? = some g) (hl : g.children[c]? = some l) :
    indexIsValid f (Index.mk r c) = some true := by
  rw [indexIsValid_eq]
  have h1 : r < f.length := (List.getElem?_eq_some_iff.mp hg).1
  have h2 : c < g.children.length := (List.getElem?_eq_some_iff.mp hl).1
  simp [groupCount, leafCount, topLevelItem_natCast, hg, Group.childCount, h1, h2]

theorem derivedTriState_of_checked_mem {ch : List Leaf}
    (hbin : ∀ x ∈ ch, x.checkState = .Checked ∨ x.checkState = .Unchecked)
    {x : Leaf} (hx : x ∈ ch) (hxc : x.checkState = .Checked) :
    (if ∀ y ∈ ch, ¬ y.checkState = .Unchecked
      then CheckState.Checked else CheckState.PartiallyChecked) = derivedTriState ch := by
  unfold derivedTriState
  by_cases hall : ∀ y ∈ ch, y.checkState ≠ .Unchecked
  · have h2 : ch.all (fun l => decide (l.checkState = .Checked)) = true := by
      rw [List.all_eq_true]; intro y hy
      rcases hbin y hy with h | h
      · simpa using h
      · exact absurd h (hall y hy)
    rw [if_pos hall, if_pos h2]
  · have hall2 := hall
    push_neg at hall2
    obtain ⟨y, hy, hyu⟩ := hall2
    have h2 : ¬ ch.all (fun l => decide (l.checkState = .Checked)) = true := by
      rw [List.all_eq_true]; intro hc
      have := hc y hy
      simp [hyu] at this
    have h3 : ¬ ch.all (fun l => decide (l.checkState = .Unchecked)) = true := by
      rw [List.all_eq_true]; intro hc
      have := hc x hx
      simp [hxc] at this
    rw [if_neg hall, if_neg h2, if_neg h3]

theorem derivedTriState_of_unchecked_mem {ch : List Leaf}
    (hbin : ∀ x ∈ ch, x.checkState = .Checked ∨ x.checkState = .Unchecked)
    {x : Leaf} (hx : x ∈ ch) (hxc : x.checkState = .Unchecked) :
    (if ∀ y ∈ ch, ¬ y.checkState = .Checked
      then CheckState.Unchecked else CheckState.PartiallyChecked) = derivedTriState ch := by
  unfold derivedTriState
  by_cases hall : ∀ y ∈ ch, y.checkState ≠ .Checked
  · have h2 : ch.all (fun l => decide (l.checkState = .Unchecked)) = true := by
      rw [List.all_eq_true]; intro y hy
      rcases hbin y hy with h | h
      · exact absurd h (hall y hy)
      · simpa using h
    have h3 : ¬ ch.all (fun l => decide (l.checkState = .Checked)) = true := by
      rw [List.all_eq_true]; intro hc
      have := hc x hx
      simp [hxc] at this
    rw [if_pos hall, if_neg h3, if_pos h2]
  · have hall2 := hall
    push_neg at hall2
    obtain ⟨y, hy, hyu⟩ := hall2
    have h2 : ¬ ch.all (fun l => decide (l.checkState = .Checked)) = true := by
      rw [List.all_eq_true]; intro hc
      have := hc x hx
      simp [hxc] at this
    have h3 : ¬ ch.all (fun l => decide (l.checkState = .Unchecked)) = true := by
      rw [List.all_eq_true]; intro hc
      have := hc y hy
      simp [hyu] at this
    rw [if_neg hall, if_neg h2, if_neg h3]

theorem modifyTop_getElem?_self {f : Forest} {r : Nat} {g : Group} (k : Group → Group)
    (hg : f[r]? = some g) : (modifyTop f r k)[r]? = some (k g) := by
  simp [modifyTop, List.getElem?_modify, hg]

theorem modifyTop_getElem?_ne {f : Forest} {r s : Nat} (k : Group → Group)
    (h : r ≠ s) : (modifyTop f r k)[s]? = f[s]? := by
  simp only [modifyTop, List.getElem?_modify, h, if_false]
  cases f[s]? <;> rfl

theorem modifyTop_length (f : Forest) (r : Nat) (k : Group → Group) :
    (modifyTop f r k).length = f.length := by
  simp [modifyTop]

/-- Closed form of `setItemChecked` at a valid coordinate. -/
theorem setItemChecked_valid {f : Forest} {r c : Nat} {g : Group} {l : Leaf}
    (hg : f[r]? = some g) (hl : g.children[c]? = some l) (b : Bool) :
    setItemChecked f (Index.mk r c) b =
      some (itemClickedEvent
        (setCheckState f (.sub r c) (if b then .Checked else .Unchecked)) (.sub r c)) := by
  unfold setItemChecked
  rw [indexIsValid_of_getElem hg hl]
  simp only [Option.some_bind, Bool.not_true, Bool.false_eq_true, if_false,
    topLevelItem_natCast, hg, Group.child, Int.toNat_ofNat, Int.natCast_nonneg, if_true, hl,
    Option.map_some']
  cases b <;> simp

/-- The recomputation of the parent state by `itemClickedEvent`, with the scans read as
quantifiers over the children. -/
theorem itemClickedEvent_sub {f : Forest} {r c : Nat} {it : Leaf}
    (h : (f[r]?).bind (fun g => g.children[c]?) = some it) :
    itemClickedEvent f (.sub r c) =
      modifyTop f r (fun parent =>
        if it.checkState = .Checked then
          (if ∀ x ∈ parent.children, ¬ x.checkState = .Unchecked
            then { parent with checkState := .Checked }
            else { parent with checkState := .PartiallyChecked })
        else
          (if ∀ x ∈ parent.children, ¬ x.checkState = .Checked
            then { parent with checkState := .Unchecked }
            else { parent with checkState := .PartiallyChecked })) := by
  unfold itemClickedEvent
  simp only [h]
  congr 1
  funext parent
  simp [List.findIdx_eq_length]

/-- The forest after `setItemChecked` at the valid coordinate `(r, c)`: the other groups are
untouched, the leaf at `c` holds the new flag, and the stored state of the group is the
outcome of the scan of `itemClickedEvent`. -/
theorem setItemChecked_group {f : Forest} {r c : Nat} {g : Group} {l : Leaf}
    (hg : f[r]? = some g) (hl : g.children[c]? = some l) (b : Bool) :
    ∃ f2 ch, setItemChecked f (Index.mk r c) b = some f2 ∧
      f2.length = f.length ∧ (∀ s, s ≠ r → f2[s]? = f[s]?) ∧
      ch = List.modify (fun x => { x with checkState := if b then .Checked else .Unchecked })
            c g.children ∧
      f2[r]? = some
        { text := g.text
          selected := g.selected
          children := ch
          checkState :=
            if b then
              (if ∀ y ∈ ch, ¬ y.checkState = .Unchecked
                then CheckState.Checked else CheckState.PartiallyChecked)
            else
              (if ∀ y ∈ ch, ¬ y.checkState = .Checked
                then CheckState.Unchecked else CheckState.PartiallyChecked) } := by
  rw [setItemChecked_valid hg hl]
  have h1 : (setCheckState f (.sub r c) (if b then .Checked else .Unchecked))[r]? =
      some { g with children := (List.modify
        (fun x => { x with checkState := if b then .Checked else .Unchecked }) c g.children) } := by
    simp only [setCheckState, modifySub]
    exact modifyTop_getElem?_self _ hg
  have hlook : ((setCheckState f (.sub r c) (if b then .Checked else .Unchecked))[r]?).bind
      (fun g => g.children[c]?) =
      some { l with checkState := if b then .Checked else .Unchecked } := by
    rw [h1]
    simp [List.getElem?_modify, hl]
  rw [itemClickedEvent_sub hlook]
  refine ⟨_, _, rfl, ?_, ?_, rfl, ?_⟩
  · simp [modifyTop_length, setCheckState, modifySub]
  · intro s hs
    rw [modifyTop_getElem?_ne _ (Ne.symm hs)]
    simp only [setCheckState, modifySub]
    exact modifyTop_getElem?_ne _ (Ne.symm hs)
  · rw [modifyTop_getElem?_self _ h1]
    cases b
    · simp only [Bool.false_eq_true, if_false, reduceCtorEq]
      split <;> rfl
    · simp only [if_true]
      split <;> rfl

theorem mem_modify_cases {α : Type} {k : α → α} {c : Nat} {l : List α} {x : α}
    (hx : x ∈ List.modify k c l) : x ∈ l ∨ ∃ y ∈ l, x = k y := by
  obtain ⟨i, hi⟩ := List.mem_iff_getElem?.mp hx
  rw [List.getElem?_modify] at hi
  cases hli : l[i]? with
  | none => simp [hli] at hi
  | some y =>
    have hy : y ∈ l := List.mem_iff_getElem?.mpr ⟨i, hli⟩
    simp only [hli, Option.map_eq_map, Option.map_some', Option.some.injEq] at hi
    by_cases hci : c = i
    · right; exact ⟨y, hy, by simpa [hci] using hi.symm⟩
    · left; simp only [hci, if_false] at hi; rw [← hi]; exact hy

/-- Closed form of `removeItem` at a valid coordinate. -/
theorem removeItem_valid {f : Forest} {r c : Nat} {g : Group} {l : Leaf}
    (hg : f[r]? = some g) (hl : g.children[c]? = some l) :
    removeItem f (Index.mk r c) =
      some (if g.children.length = 1 then f.eraseIdx r
        else modifyTop f r (fun x => { x with children := x.children.eraseIdx c })) := by
  unfold removeItem
  rw [indexIsValid_of_getElem hg hl]
  simp only [Option.some_bind, Bool.not_true, Bool.false_eq_true, if_false,
    topLevelItem_natCast, hg, Option.map_some', Group.childCount, takeTopLevelItem,
    Group.takeChild, Int.natCast_nonneg, if_true, Int.toNat_ofNat]
  congr 1
  by_cases h : g.children.length = 1
  · simp [h]
  · have h2 : ¬ ((g.children.length : Int) = 1) := by omega
    simp [h, h2]

/-- Closed form of `removeItem` at a coordinate that is not valid. -/
theorem removeItem_invalid {f : Forest} {index : Index}
    (h : indexIsValid f index = some false) : removeItem f index = some f := by
  simp [removeItem, h]

theorem getElem?_modifyTop (f : Forest) (r : Nat) (k : Group → Group) (s : Nat) :
    (modifyTop f r k)[s]? = if r = s then (f[s]?).map k else f[s]? := by
  simp only [modifyTop, List.getElem?_modify]
  by_cases h : r = s
  · simp [h]
  · simp only [h, if_false]; cases f[s]? <;> rfl

theorem selectionStep_top (f : Forest) (r : Nat) :
    selectionStep f (.top r) = modifyTop f r selectAllChildren := rfl

theorem selectionStep_sub (f : Forest) (r c : Nat) :
    selectionStep f (.sub r c) = modifyTop f r selectIfAllChildren := rfl

theorem selectIfAllChildren_children (g : Group) :
    (selectIfAllChildren g).children = g.children := by
  unfold selectIfAllChildren; split <;> rfl

theorem selectIfAllChildren_selected (g : Group) :
    (selectIfAllChildren g).selected = true ↔
      (g.selected = true ∨ ∀ x ∈ g.children, x.selected = true) := by
  unfold selectIfAllChildren
  by_cases hall : ∀ x ∈ g.children, x.selected = true
  · have : g.children.findIdx (fun x => !x.selected) = g.children.length := by
      rw [List.findIdx_eq_length]; intro x hx; simp [hall x hx]
    rw [if_pos this]
    exact ⟨fun _ => Or.inr hall, fun _ => rfl⟩
  · have : ¬ g.children.findIdx (fun x => !x.selected) = g.children.length := by
      rw [List.findIdx_eq_length]; intro hc; apply hall; intro x hx
      simpa using hc x hx
    rw [if_neg this]
    exact ⟨fun h => Or.inl h, fun h => h.resolve_right hall⟩

theorem selectionStep_length (f : Forest) (p : ItemPtr) :
    (selectionStep f p).length = f.length := by
  cases p <;> simp [selectionStep, modifyTop]

theorem selectionStep_childCountAt (f : Forest) (p : ItemPtr) (r : Nat) :
    childCountAt (selectionStep f p) r = childCountAt f r := by
  cases hg : f[r]? with
  | none => cases p <;> simp [childCountAt, selectionStep, getElem?_modifyTop, hg]
  | some g =>
    cases p with
    | top r' =>
      by_cases h : r' = r <;>
        simp [childCountAt, selectionStep_top, getElem?_modifyTop, hg, h, selectAllChildren]
    | sub r' c' =>
      by_cases h : r' = r <;>
        simp [childCountAt, selectionStep_sub, getElem?_modifyTop, hg, h,
          selectIfAllChildren_children]

theorem selectionStep_top_group (f : Forest) (r' r : Nat) :
    groupSelected (selectionStep f (.top r')) r = groupSelected f r := by
  cases hg : f[r]? with
  | none => simp [groupSelected, selectionStep_top, getElem?_modifyTop, hg]
  | some g =>
    by_cases h : r' = r <;>
      simp [groupSelected, selectionStep_top, getElem?_modifyTop, hg, h, selectAllChildren]

theorem selectionStep_top_leaf (f : Forest) (r' r c : Nat) :
    leafSelected (selectionStep f (.top r')) r c =
      (leafSelected f r c || decide (r = r' ∧ c < childCountAt f r)) := by
  cases hg : f[r]? with
  | none => simp [leafSelected, childCountAt, selectionStep_top, getElem?_modifyTop, hg]
  | some g =>
    by_cases h : r' = r
    · subst h
      simp only [leafSelected, childCountAt, selectionStep_top, getElem?_modifyTop, hg, if_true,
        Option.map_some', selectAllChildren, List.getElem?_map, true_and]
      cases hl : g.children[c]? with
      | none =>
        have : ¬ c < g.children.length := by
          intro hc; rw [List.getElem?_eq_getElem hc] at hl; cases hl
        simp [this]
      | some l =>
        have : c < g.children.length := (List.getElem?_eq_some_iff.mp hl).1
        simp [this]
    · have h2 : ¬ r = r' := fun e => h e.symm
      simp [leafSelected, childCountAt, selectionStep_top, getElem?_modifyTop, hg, h, h2]

theorem selectionStep_sub_leaf (f : Forest) (r' c' r c : Nat) :
    leafSelected (selectionStep f (.sub r' c')) r c = leafSelected f r c := by
  cases hg : f[r]? with
  | none => simp [leafSelected, selectionStep_sub, getElem?_modifyTop, hg]
  | some g =>
    by_cases h : r' = r <;>
      simp [leafSelected, selectionStep_sub, getElem?_modifyTop, hg, h,
        selectIfAllChildren_children]

theorem allLeavesSelected_iff {f : Forest} {r : Nat} {g : Group} (hg : f[r]? = some g) :
    allLeavesSelected f r ↔ ∀ x ∈ g.children, x.selected = true := by
  simp only [allLeavesSelected, childCountAt, leafSelected, hg]
  constructor
  · intro h x hx
    obtain ⟨c, hc, rfl⟩ := List.getElem_of_mem hx
    have := h c hc
    simpa [List.getElem?_eq_getElem hc] using this
  · intro h c hc
    simp only [List.getElem?_eq_getElem hc]
    exact h _ (List.getElem_mem hc)

theorem selectionStep_sub_group (f : Forest) (r' c' r : Nat) :
    groupSelected (selectionStep f (.sub r' c')) r = true ↔
      (groupSelected f r = true ∨ (r = r' ∧ r < f.length ∧ allLeavesSelected f r)) := by
  cases hg : f[r]? with
  | none =>
    have hlen : ¬ r < f.length := by
      intro h; rw [List.getElem?_eq_getElem h] at hg; cases hg
    simp [groupSelected, selectionStep_sub, getElem?_modifyTop, hg, hlen]
  | some g =>
    have hlen : r < f.length := (List.getElem?_eq_some_iff.mp hg).1
    rw [allLeavesSelected_iff hg]
    by_cases h : r' = r
    · subst h
      simp only [groupSelected, selectionStep_sub, getElem?_modifyTop, hg, if_true,
        Option.map_some', selectIfAllChildren_selected, true_and, hlen]
    · have h2 : ¬ r = r' := fun e => h e.symm
      simp [groupSelected, selectionStep_sub, getElem?_modifyTop, hg, h, h2]

theorem eventOn_cons (f : Forest) (p : ItemPtr) (rest : List ItemPtr) :
    itemSelectionChangedEventOn f (p :: rest) =
      itemSelectionChangedEventOn (selectionStep f p) rest := rfl

theorem eventOn_length (f : Forest) (items : List ItemPtr) :
    (itemSelectionChangedEventOn f items).length = f.length := by
  induction items generalizing f with
  | nil => rfl
  | cons p rest ih => rw [eventOn_cons, ih, selectionStep_length]

theorem eventOn_childCountAt (f : Forest) (items : List ItemPtr) (r : Nat) :
    childCountAt (itemSelectionChangedEventOn f items) r = childCountAt f r := by
  induction items generalizing f with
  | nil => rfl
  | cons p rest ih => rw [eventOn_cons, ih, selectionStep_childCountAt]

theorem selectionStep_group_mono {f : Forest} (p : ItemPtr) {r : Nat}
    (h : groupSelected f r = true) : groupSelected (selectionStep f p) r = true := by
  cases p with
  | top r' => rw [selectionStep_top_group]; exact h
  | sub r' c' => exact (selectionStep_sub_group f r' c' r).mpr (Or.inl h)

theorem selectionStep_leaf_mono {f : Forest} (p : ItemPtr) {r c : Nat}
    (h : leafSelected f r c = true) : leafSelected (selectionStep f p) r c = true := by
  cases p with
  | top r' => rw [selectionStep_top_leaf, h]; rfl
  | sub r' c' => rw [selectionStep_sub_leaf]; exact h

theorem eventOn_group_mono {f : Forest} (items : List ItemPtr) {r : Nat}
    (h : groupSelected f r = true) :
    groupSelected (itemSelectionChangedEventOn f items) r = true := by
  induction items generalizing f with
  | nil => exact h
  | cons p rest ih => rw [eventOn_cons]; exact ih (selectionStep_group_mono p h)

theorem eventOn_leaf_mono {f : Forest} (items : List ItemPtr) {r c : Nat}
    (h : leafSelected f r c = true) :
    leafSelected (itemSelectionChangedEventOn f items) r c = true := by
  induction items generalizing f with
  | nil => exact h
  | cons p rest ih => rw [eventOn_cons]; exact ih (selectionStep_leaf_mono p h)

theorem eventOn_allLeaves_mono {f : Forest} (items : List ItemPtr) {r : Nat}
    (h : allLeavesSelected f r) :
    allLeavesSelected (itemSelectionChangedEventOn f items) r := by
  intro c hc
  rw [eventOn_childCountAt] at hc
  exact eventOn_leaf_mono items (h c hc)

theorem selectionStep_allLeaves_mono {f : Forest} (p : ItemPtr) {r : Nat}
    (h : allLeavesSelected f r) : allLeavesSelected (selectionStep f p) r :=
  eventOn_allLeaves_mono [p] h

/-- Downward cascade: once the top-level item `r` has been visited, all its children are
selected. -/
theorem eventOn_of_top_mem {f : Forest} {items : List ItemPtr} {r : Nat}
    (h : ItemPtr.top r ∈ items) :
    allLeavesSelected (itemSelectionChangedEventOn f items) r := by
  induction items generalizing f with
  | nil => cases h
  | cons p rest ih =>
    rw [eventOn_cons]
    rcases List.mem_cons.mp h with hp | hrest
    · subst hp
      apply eventOn_allLeaves_mono
      intro c hc
      rw [selectionStep_childCountAt] at hc
      rw [selectionStep_top_leaf]
      simp [hc]
    · exact ih hrest

/-- Upward cascade: a visited child whose siblings are all selected selects its parent. -/
theorem eventOn_of_sub_mem {f : Forest} {items : List ItemPtr} {r c : Nat}
    (h : ItemPtr.sub r c ∈ items) (hr : r < f.length) (hall : allLeavesSelected f r) :
    groupSelected (itemSelectionChangedEventOn f items) r = true := by
  induction items generalizing f with
  | nil => cases h
  | cons p rest ih =>
    rw [eventOn_cons]
    rcases List.mem_cons.mp h with hp | hrest
    · subst hp
      apply eventOn_group_mono
      exact (selectionStep_sub_group f r c r).mpr (Or.inr ⟨rfl, hr, hall⟩)
    · exact ih hrest (by rw [selectionStep_length]; exact hr)
        (selectionStep_allLeaves_mono p hall)

/-- A group selected after the handler was selected before, or has all leaves selected. -/
theorem eventOn_group_origin (f : Forest) (items : List ItemPtr) (r : Nat)
    (h : groupSelected (itemSelectionChangedEventOn f items) r = true) :
    groupSelected f r = true ∨ allLeavesSelected (itemSelectionChangedEventOn f items) r := by
  induction items generalizing f with
  | nil => exact Or.inl h
  | cons p rest ih =>
    rw [eventOn_cons] at h ⊢
    rcases ih (selectionStep f p) h with h1 | h1
    · cases p with
      | top r' => rw [selectionStep_top_group] at h1; exact Or.inl h1
      | sub r' c' =>
        rcases (selectionStep_sub_group f r' c' r).mp h1 with h2 | ⟨-, -, h2⟩
        · exact Or.inl h2
        · exact Or.inr (eventOn_allLeaves_mono rest (selectionStep_allLeaves_mono _ h2))
    · exact Or.inr h1

/-- A leaf selected after the handler was selected before, or its group was visited. -/
theorem eventOn_leaf_origin (f : Forest) (items : List ItemPtr) (r c : Nat)
    (h : leafSelected (itemSelectionChangedEventOn f items) r c = true) :
    leafSelected f r c = true ∨ ItemPtr.top r ∈ items := by
  induction items generalizing f with
  | nil => exact Or.inl h
  | cons p rest ih =>
    rw [eventOn_cons] at h
    rcases ih (selectionStep f p) h with h1 | h1
    · cases p with
      | top r' =>
        rw [selectionStep_top_leaf] at h1
        rcases Bool.or_eq_true _ _ ▸ h1 with h2 | h2
        · exact Or.inl h2
        · have : r = r' := (of_decide_eq_true h2).1
          subst this
          exact Or.inr (List.mem_cons_self _ _)
      | sub r' c' => rw [selectionStep_sub_leaf] at h1; exact Or.inl h1
    · exact Or.inr (List.mem_cons_of_mem _ h1)

theorem mem_selectedItems_top (f : Forest) (r : Nat) :
    ItemPtr.top r ∈ selectedItems f ↔ groupSelected f r = true := by
  simp only [selectedItems, List.mem_flatMap, List.mem_range, groupSelected]
  constructor
  · rintro ⟨s, hs, hmem⟩
    rw [List.getElem?_eq_getElem hs] at hmem
    simp only [List.mem_append, List.mem_map, List.mem_filter, List.mem_range] at hmem
    rcases hmem with h | ⟨_, _, h⟩
    · by_cases hsel : f[s].selected = true
      · simp only [hsel, if_true, List.mem_singleton, ItemPtr.top.injEq] at h
        subst h
        simp [List.getElem?_eq_getElem hs, hsel]
      · simp [hsel] at h
    · cases h
  · intro h
    cases hg : f[r]? with
    | none => simp [hg] at h
    | some g =>
      simp only [hg] at h
      have hr : r < f.length := (List.getElem?_eq_some_iff.mp hg).1
      refine ⟨r, hr, ?_⟩
      simp [hg, h]

theorem mem_selectedItems_sub (f : Forest) (r c : Nat) :
    ItemPtr.sub r c ∈ selectedItems f ↔ leafSelected f r c = true := by
  simp only [selectedItems, List.mem_flatMap, List.mem_range, leafSelected]
  constructor
  · rintro ⟨s, hs, hmem⟩
    rw [List.getElem?_eq_getElem hs] at hmem
    simp only [List.mem_append, List.mem_map, List.mem_filter, List.mem_range] at hmem
    rcases hmem with h | ⟨c', ⟨_, hsel⟩, h⟩
    · by_cases hsel : f[s].selected = true
      · simp [hsel] at h
      · simp [hsel] at h
    · simp only [ItemPtr.sub.injEq] at h
      obtain ⟨rfl, rfl⟩ := h
      simp only [List.getElem?_eq_getElem hs]
      exact hsel
  · intro h
    cases hg : f[r]? with
    | none => simp [hg] at h
    | some g =>
      simp only [hg] at h
      have hr : r < f.length := (List.getElem?_eq_some_iff.mp hg).1
      refine ⟨r, hr, ?_⟩
      simp only [hg, List.mem_append, List.mem_map, List.mem_filter, List.mem_range]
      right
      refine ⟨c, ⟨?_, h⟩, rfl⟩
      cases hl : g.children[c]? with
      | none => simp [hl] at h
      | some l => exact (List.getElem?_eq_some_iff.mp hl).1

theorem childCountAt_pos_of_nonempty {f : Forest} (hne : ∀ g ∈ f, g.children ≠ [])
    {r : Nat} (hr : r < f.length) : 0 < childCountAt f r := by
  simp only [childCountAt, List.getElem?_eq_getElem hr]
  exact List.length_pos.mpr (hne _ (List.getElem_mem hr))

theorem modifyTop_eq_self {f : Forest} {r : Nat} {k : Group → Group}
    (h : ∀ g, f[r]? = some g → k g = g) : modifyTop f r k = f := by
  apply List.ext_getElem?
  intro s
  rw [getElem?_modifyTop]
  by_cases hrs : r = s
  · subst hrs
    simp only [if_true]
    cases hg : f[r]? with
    | none => rfl
    | some g => simp [h g hg]
  · simp [hrs]

/-- A state on which every round of the selection handler is the identity. -/
theorem selectionStep_eq_self {f : Forest}
    (hdown : ∀ r, groupSelected f r = true → allLeavesSelected f r)
    (hup : ∀ r, r < f.length → 0 < childCountAt f r → allLeavesSelected f r →
      groupSelected f r = true)
    {p : ItemPtr} (hp : p ∈ selectedItems f) : selectionStep f p = f := by
  cases p with
  | top r =>
    rw [selectionStep_top]
    apply modifyTop_eq_self
    intro g hg
    have hsel : groupSelected f r = true := (mem_selectedItems_top f r).mp hp
    have hall := (allLeavesSelected_iff hg).mp (hdown r hsel)
    unfold selectAllChildren
    have : g.children.map (fun c => { c with selected := true }) = g.children := by
      conv_rhs => rw [← List.map_id g.children]
      apply List.map_congr_left
      intro c hc
      have := hall c hc
      cases c
      simp_all
    rw [this]
  | sub r c =>
    rw [selectionStep_sub]
    apply modifyTop_eq_self
    intro g hg
    have hsel : leafSelected f r c = true := (mem_selectedItems_sub f r c).mp hp
    have hr : r < f.length := (List.getElem?_eq_some_iff.mp hg).1
    have hpos : 0 < childCountAt f r := by
      simp only [leafSelected, hg] at hsel
      simp only [childCountAt, hg]
      cases hl : g.children[c]? with
      | none => simp [hl] at hsel
      | some l => have := (List.getElem?_eq_some_iff.mp hl).1; omega
    unfold selectIfAllChildren
    split
    · rename_i hidx
      have hall : allLeavesSelected f r := by
        rw [allLeavesSelected_iff hg]
        intro x hx
        have := (List.findIdx_eq_length.mp hidx) x hx
        simpa using this
      have hgs := hup r hr hpos hall
      simp only [groupSelected, hg] at hgs
      cases g
      simp_all
    · rfl

theorem eventOn_eq_self {f : Forest}
    (hdown : ∀ r, groupSelected f r = true → allLeavesSelected f r)
    (hup : ∀ r, r < f.length → 0 < childCountAt f r → allLeavesSelected f r →
      groupSelected f r = true)
    (items : List ItemPtr) (hitems : ∀ p ∈ items, p ∈ selectedItems f) :
    itemSelectionChangedEventOn f items = f := by
  induction items with
  | nil => rfl
  | cons p rest ih =>
    rw [eventOn_cons, selectionStep_eq_self hdown hup (hitems p (List.mem_cons_self _ _))]
    exact ih (fun q hq => hitems q (List.mem_cons_of_mem _ hq))

/-- After one run of the handler over the selected items, every selected group has all its
leaves selected. -/
theorem eventOn_closed_down {f : Forest} {items : List ItemPtr}
    (hitems : ∀ p, p ∈ selectedItems f → p ∈ items) (r : Nat)
    (h : groupSelected (itemSelectionChangedEventOn f items) r = true) :
    allLeavesSelected (itemSelectionChangedEventOn f items) r := by
  rcases eventOn_group_origin f items r h with h1 | h1
  · exact eventOn_of_top_mem (hitems _ ((mem_selectedItems_top f r).mpr h1))
  · exact h1

/-- After one run of the handler over the selected items, every group with a leaf and with
all leaves selected is selected. -/
theorem eventOn_closed_up {f : Forest} {items : List ItemPtr}
    (hitems : ∀ p, p ∈ items ↔ p ∈ selectedItems f) (r : Nat) (hr : r < f.length)
    (hpos : 0 < childCountAt f r)
    (h : allLeavesSelected (itemSelectionChangedEventOn f items) r) :
    groupSelected (itemSelectionChangedEventOn f items) r = true := by
  by_cases hall : allLeavesSelected f r
  · have h0 : leafSelected f r 0 = true := hall 0 hpos
    exact eventOn_of_sub_mem ((hitems _).mpr ((mem_selectedItems_sub f r 0).mpr h0)) hr hall
  · unfold allLeavesSelected at hall
    push_neg at hall
    obtain ⟨c, hc, hnot⟩ := hall
    have hc2 : c < childCountAt (itemSelectionChangedEventOn f items) r := by
      rw [eventOn_childCountAt]; exact hc
    rcases eventOn_leaf_origin f items r c (h c hc2) with h1 | h1
    · exact absurd h1 hnot
    · exact eventOn_group_mono items ((mem_selectedItems_top f r).mp ((hitems _).mp h1))

theorem modifyTop_append_at_length (f : Forest) (x : Group) (t : Forest) (k : Group → Group) :
    modifyTop (f ++ x :: t) f.length k = f ++ k x :: t := by
  unfold modifyTop
  induction f with
  | nil => simp
  | cons a l ih => simpa using ih

theorem modifyTop_append_at_succ_length (f : Forest) (x y : Group) (k : Group → Group) :
    modifyTop (f ++ [x, y]) (f.length + 1) k = f ++ [x, k y] := by
  have := modifyTop_append_at_length (f ++ [x]) y [] k
  simpa using this

/-- Attaching an item that is already in the tree changes nothing. -/
theorem addChild_eq (f : Forest) (parent child : ItemPtr) : addChild f parent child = f := by
  cases parent with
  | top r => cases h : f[r]? <;> simp [addChild, insertChild, h]
  | sub r c => rfl

/-- Closed form of `addItem` in the branch that builds a parent and a child item: both
items are appended to the top level, neither gets a child. -/
theorem addItem_outside (f : Forest) (index : Index) (parent_id child_id : String)
    (selected : Bool) (h : index.row ≤ -1 ∨ index.row > topLevelItemCount f) :
    addItem f index parent_id child_id selected =
      some (if selected then
          setCurrentItem (f ++ [checkedItem parent_id, checkedItem child_id])
            (.top (f.length + 1))
        else f ++ [checkedItem parent_id, checkedItem child_id]) := by
  unfold addItem
  rw [if_pos h]
  simp only [newItem, setText, setCheckState, addChild_eq, addTopLevelItem,
    List.length_append, List.length_singleton, List.append_assoc, List.singleton_append,
    modifyTop_append_at_length, modifyTop_append_at_succ_length, blankItem, checkedItem]

/-- Closed form of `addItem` in the branch that builds a child item alone: the item is
appended to the top level and the item at `index.row` gets no child. -/
theorem addItem_inside (f : Forest) (index : Index) (parent_id child_id : String)
    (selected : Bool) (h : ¬ (index.row ≤ -1 ∨ index.row > topLevelItemCount f)) :
    addItem f index parent_id child_id selected =
      some (if selected then setCurrentItem (f ++ [checkedItem child_id]) (.top f.length)
        else f ++ [checkedItem child_id]) := by
  unfold addItem
  rw [if_neg h]
  simp only [newItem, setText, setCheckState, addChild_eq, insertChild,
    modifyTop_append_at_length, blankItem, ite_self]
  unfold topLevelItemCount at h
  have h0 : 0 ≤ index.row := by omega
  have hlt : index.row.toNat < (f ++ [checkedItem child_id]).length := by
    simp only [List.length_append, List.length_singleton]; omega
  change Option.map _ (topLevelItem (f ++ [checkedItem child_id]) index.row) = _
  rw [topLevelItem_of_nonneg h0, List.getElem?_eq_getElem hlt]
  rfl

theorem leafTotal_append (f h : Forest) : leafTotal (f ++ h) = leafTotal f + leafTotal h := by
  simp [leafTotal]

theorem map_length_modifyTop (f : Forest) (r : Nat) (k : Group → Group)
    (hk : ∀ g, (k g).children.length = g.children.length) :
    (modifyTop f r k).map (fun g => g.children.length) = f.map (fun g => g.children.length) := by
  apply List.ext_getElem?
  intro s
  simp only [List.getElem?_map, getElem?_modifyTop]
  by_cases h : r = s
  · simp only [h, if_true]
    cases f[s]? with
    | none => rfl
    | some g => simp [hk]
  · simp [h]

theorem leafTotal_setCurrentItem (f : Forest) (r : Nat) :
    leafTotal (setCurrentItem f (.top r)) = leafTotal f := by
  have e : setCurrentItem f (.top r) =
      modifyTop (clearSelection f) r (fun g => { g with selected := true }) := rfl
  unfold leafTotal
  rw [e, map_length_modifyTop (clearSelection f) r (fun g => { g with selected := true })
    (fun g => rfl)]
  simp [clearSelection, Function.comp_def]

theorem length_setCurrentItem (f : Forest) (r : Nat) :
    (setCurrentItem f (.top r)).length = f.length := by
  simp [setCurrentItem, setSelected, modifyTop, clearSelection]

/-- One round of the parent-first loop appends the block of the visited element, provided a
marker designates a group of the forest. -/
theorem parentFirstStep_eq_block (f : Forest) (indexs res : List Index) (i : Index)
    (h : i.col = -1 → 0 ≤ i.row ∧ i.row < groupCount f) :
    parentFirstStep f indexs res i = some (res ++ parentFirstBlock f indexs i) := by
  unfold parentFirstStep parentFirstBlock
  by_cases hc : i.col ≠ -1
  · simp only [hc, if_true, ne_eq, not_false_eq_true]
    split <;> simp
  · have hc2 : i.col = -1 := by simpa using hc
    obtain ⟨h0, h1⟩ := h hc2
    unfold groupCount at h1
    have hlt : i.row.toNat < f.length := by omega
    simp only [hc, if_false, leafCount, topLevelItem_of_nonneg h0,
      List.getElem?_eq_getElem hlt, Option.map_some', Group.childCount, Int.toNat_ofNat]

theorem foldlM_parentFirstStep (f : Forest) (indexs : List Index) (l res : List Index)
    (h : ∀ i ∈ l, i.col = -1 → 0 ≤ i.row ∧ i.row < groupCount f) :
    l.foldlM (parentFirstStep f indexs) res =
      some (res ++ l.flatMap (parentFirstBlock f indexs)) := by
  induction l generalizing res with
  | nil => simp
  | cons i rest ih =>
    rw [List.foldlM_cons, parentFirstStep_eq_block f indexs res i (h i (List.mem_cons_self _ _))]
    simp only [Option.bind_eq_bind, Option.some_bind]
    rw [ih _ (fun j hj => h j (List.mem_cons_of_mem _ hj))]
    simp [List.flatMap_cons]

/-- The group at `r` after `setItemChecked` at the valid coordinate `(r, c)` of a group whose
leaf flags are `Checked` or `Unchecked`: its leaf at `c` holds the new flag, its leaf flags
are again `Checked` or `Unchecked`, and its stored state is the derived one. -/
theorem setItemChecked_group_derived {f : Forest} {r c : Nat} {g : Group} {l : Leaf}
    (hg : f[r]? = some g) (hl : g.children[c]? = some l)
    (hbin : ∀ x ∈ g.children, x.checkState = .Checked ∨ x.checkState = .Unchecked)
    (b : Bool) :
    ∃ f2 g2, setItemChecked f (Index.mk r c) b = some f2 ∧
      f2.length = f.length ∧ (∀ s, s ≠ r → f2[s]? = f[s]?) ∧ f2[r]? = some g2 ∧
      g2.children[c]? = some { l with checkState := if b then .Checked else .Unchecked } ∧
      g2.checkState = derivedTriState g2.children ∧
      (∀ x ∈ g2.children, x.checkState = .Checked ∨ x.checkState = .Unchecked) := by
  obtain ⟨f2, ch, hset, hlen, hother, hch, hf2⟩ := setItemChecked_group hg hl b
  have hchc : ch[c]? = some { l with checkState := if b then .Checked else .Unchecked } := by
    rw [hch, List.getElem?_modify, hl]; simp
  have hmem : ({ l with checkState := if b then .Checked else .Unchecked } : Leaf) ∈ ch :=
    List.mem_iff_getElem?.mpr ⟨c, hchc⟩
  have hbin2 : ∀ x ∈ ch, x.checkState = .Checked ∨ x.checkState = .Unchecked := by
    intro x hx
    rw [hch] at hx
    rcases mem_modify_cases hx with h | ⟨y, -, rfl⟩
    · exact hbin x h
    · cases b <;> simp
  refine ⟨f2, _, hset, hlen, hother, hf2, hchc, ?_, hbin2⟩
  cases b
  · simp only [Bool.false_eq_true, if_false]
    exact derivedTriState_of_unchecked_mem hbin2 hmem (by simp)
  · simp only [if_true]
    exact derivedTriState_of_checked_mem hbin2 hmem (by simp)

theorem setItemChecked_invalid {f : Forest} {index : Index} (b : Bool)
    (h : indexIsValid f index = some false) : setItemChecked f index b = some f := by
  simp [setItemChecked, h]

theorem indexIsValid_cases (f : Forest) (index : Index) :
    indexIsValid f index = some true ∨ indexIsValid f index = some false := by
  rw [indexIsValid_eq]
  by_cases h : 0 ≤ index.row ∧ index.row < groupCount f ∧
      0 ≤ index.col ∧ index.col < leafCount f index.row
  · left; simp [h]
  · right; simp only [Option.some.injEq, decide_eq_false_iff_not]; exact h

theorem ascLess_eq_false_iff (a b : Index) : ascLess b a = false ↔ lexLe a b := by
  unfold ascLess lexLe
  simp only [Bool.or_eq_false_iff, Bool.and_eq_false_iff, decide_eq_false_iff_not]
  omega

theorem descLess_eq_false_iff (a b : Index) : descLess b a = false ↔ lexLe b a := by
  unfold descLess lexLe
  simp only [Bool.or_eq_false_iff, Bool.and_eq_false_iff, decide_eq_false_iff_not]
  omega

theorem lexLe_total (a b : Index) : lexLe a b ∨ lexLe b a := by
  unfold lexLe; omega

theorem lexLe_trans {a b c : Index} (h1 : lexLe a b) (h2 : lexLe b c) : lexLe a c := by
  unfold lexLe at *; omega

theorem lexLe_antisymm {a b : Index} (h1 : lexLe a b) (h2 : lexLe b a) : a = b := by
  cases a; cases b
  unfold lexLe at *
  simp only [Index.mk.injEq] at *
  omega

theorem ascRel_isTotal : IsTotal Index (fun a b => ascLess b a = false) :=
  ⟨fun a b => by simp only [ascLess_eq_false_iff]; exact lexLe_total a b⟩

theorem ascRel_isTrans : IsTrans Index (fun a b => ascLess b a = false) :=
  ⟨fun a b c h1 h2 => by
    simp only [ascLess_eq_false_iff] at *; exact lexLe_trans h1 h2⟩

theorem ascRel_isAntisymm : IsAntisymm Index (fun a b => ascLess b a = false) :=
  ⟨fun a b h1 h2 => by
    simp only [ascLess_eq_false_iff] at *; exact lexLe_antisymm h1 h2⟩

theorem descRel_isTotal : IsTotal Index (fun a b => descLess b a = false) :=
  ⟨fun a b => by simp only [descLess_eq_false_iff]; exact lexLe_total b a⟩

theorem descRel_isTrans : IsTrans Index (fun a b => descLess b a = false) :=
  ⟨fun a b c h1 h2 => by
    simp only [descLess_eq_false_iff] at *; exact lexLe_trans h2 h1⟩

theorem descRel_isAntisymm : IsAntisymm Index (fun a b => descLess b a = false) :=
  ⟨fun a b h1 h2 => by
    simp only [descLess_eq_false_iff] at *; exact lexLe_antisymm h2 h1⟩

/-- The ascending sort is ordered by `lexLe`, pair by pair. -/
theorem stdSort_ascLess_pairwise (l : List Index) :
    List.Pairwise lexLe (stdSort ascLess l) := by
  haveI := ascRel_isTotal
  haveI := ascRel_isTrans
  have h := List.sorted_insertionSort (fun a b => ascLess b a = false) l
  exact List.Pairwise.imp (fun hab => (ascLess_eq_false_iff _ _).mp hab) h

theorem stdSort_descLess_pairwise (l : List Index) :
    List.Pairwise (fun a b => lexLe b a) (stdSort descLess l) := by
  haveI := descRel_isTotal
  haveI := descRel_isTrans
  have h := List.sorted_insertionSort (fun a b => descLess b a = false) l
  exact List.Pairwise.imp (fun hab => (descLess_eq_false_iff _ _).mp hab) h

theorem stdSort_perm (less : Index → Index → Bool) (l : List Index) :
    (stdSort less l).Perm l :=
  List.perm_insertionSort _ l

/-- The ordered permutation is unique: whatever way the elements are sorted, the outcome of
the ascending sort is the list computed by `stdSort`. -/
theorem stdSort_ascLess_unique {l res : List Index} (hp : res.Perm l)
    (hs : List.Pairwise lexLe res) : res = stdSort ascLess l := by
  haveI := ascRel_isAntisymm
  have h1 : List.Sorted (fun a b => ascLess b a = false) res :=
    List.Pairwise.imp (fun hab => (ascLess_eq_false_iff _ _).mpr hab) hs
  have h2 : List.Sorted (fun a b => ascLess b a = false) (stdSort ascLess l) := by
    haveI := ascRel_isTotal
    haveI := ascRel_isTrans
    exact List.sorted_insertionSort _ l
  exact List.eq_of_perm_of_sorted (hp.trans (stdSort_perm ascLess l).symm) h1 h2

theorem stdSort_descLess_unique {l res : List Index} (hp : res.Perm l)
    (hs : List.Pairwise (fun a b => lexLe b a) res) : res = stdSort descLess l := by
  haveI := descRel_isAntisymm
  have h1 : List.Sorted (fun a b => descLess b a = false) res :=
    List.Pairwise.imp (fun hab => (descLess_eq_false_iff _ _).mpr hab) hs
  have h2 : List.Sorted (fun a b => descLess b a = false) (stdSort descLess l) := by
    haveI := descRel_isTotal
    haveI := descRel_isTrans
    exact List.sorted_insertionSort _ l
  exact List.eq_of_perm_of_sorted (hp.trans (stdSort_perm descLess l).symm) h1 h2

theorem indexIsValid_false_iff (f : Forest) (index : Index) :
    indexIsValid f index = some false ↔
      (index.row < 0 ∨ index.row ≥ groupCount f ∨ index.col ≤ -1 ∨
        index.col ≥ leafCount f index.row) := by
  rw [indexIsValid_eq]
  simp only [Option.some.injEq, decide_eq_false_iff_not]
  omega

theorem map_modifyTop_of_invariant {β : Type} (φ : Group → β) (f : Forest) (r : Nat)
    (k : Group → Group) (hk : ∀ g, φ (k g) = φ g) :
    (modifyTop f r k).map φ = f.map φ := by
  apply List.ext_getElem?
  intro s
  simp only [List.getElem?_map, getElem?_modifyTop]
  by_cases h : r = s
  · simp only [h, if_true]
    cases f[s]? with
    | none => rfl
    | some g => simp [hk]
  · simp [h]

theorem map_text_modify (k : Leaf → Leaf) (c : Nat) (l : List Leaf)
    (hk : ∀ x, (k x).text = x.text) :
    (List.modify k c l).map (fun x => x.text) = l.map (fun x => x.text) := by
  apply List.ext_getElem?
  intro s
  simp only [List.getElem?_map, List.getElem?_modify]
  cases l[s]? with
  | none => rfl
  | some x => by_cases h : c = s <;> simp [h, hk]

theorem map_selected_modify (k : Leaf → Leaf) (c : Nat) (l : List Leaf)
    (hk : ∀ x, (k x).selected = x.selected) :
    (List.modify k c l).map (fun x => x.selected) = l.map (fun x => x.selected) := by
  apply List.ext_getElem?
  intro s
  simp only [List.getElem?_map, List.getElem?_modify]
  cases l[s]? with
  | none => rfl
  | some x => by_cases h : c = s <;> simp [h, hk]

/-- `itemClickedEvent` keeps the shape, the labels and the selection flags. -/
theorem itemClickedEvent_labels_selection (f : Forest) (item : ItemPtr) :
    labelsOf (itemClickedEvent f item) = labelsOf f ∧
    selectionOf (itemClickedEvent f item) = selectionOf f := by
  cases item with
  | top r =>
    unfold itemClickedEvent labelsOf selectionOf
    constructor
    · apply map_modifyTop_of_invariant
      intro g
      simp only [List.map_map, Prod.mk.injEq, true_and]
      apply List.map_congr_left
      intro c _
      simp only [Function.comp]
      split
      · rfl
      · split <;> rfl
    · apply map_modifyTop_of_invariant
      intro g
      simp only [List.map_map, Prod.mk.injEq, true_and]
      apply List.map_congr_left
      intro c _
      simp only [Function.comp]
      split
      · rfl
      · split <;> rfl
  | sub r c =>
    cases h : (f[r]?).bind (fun g => g.children[c]?) with
    | none =>
      have e : itemClickedEvent f (.sub r c) = f := by simp only [itemClickedEvent, h]
      rw [e]
      exact ⟨rfl, rfl⟩
    | some it =>
      rw [itemClickedEvent_sub h]
      unfold labelsOf selectionOf
      constructor
      · apply map_modifyTop_of_invariant
        intro g
        split <;> split <;> rfl
      · apply map_modifyTop_of_invariant
        intro g
        split <;> split <;> rfl

theorem setCheckState_sub_labels_selection (f : Forest) (r c : Nat) (st : CheckState) :
    labelsOf (setCheckState f (.sub r c) st) = labelsOf f ∧
    selectionOf (setCheckState f (.sub r c) st) = selectionOf f := by
  unfold setCheckState modifySub labelsOf selectionOf
  constructor
  · apply map_modifyTop_of_invariant
    intro g
    simp only [Prod.mk.injEq, true_and]
    exact map_text_modify _ _ _ (fun _ => rfl)
  · apply map_modifyTop_of_invariant
    intro g
    simp only [Prod.mk.injEq, true_and]
    exact map_selected_modify _ _ _ (fun _ => rfl)

theorem selectionStep_labels_checkStates (f : Forest) (p : ItemPtr) :
    labelsOf (selectionStep f p) = labelsOf f ∧
    (selectionStep f p).map (fun g => (g.checkState, g.children.map (fun l => l.checkState))) =
      f.map (fun g => (g.checkState, g.children.map (fun l => l.checkState))) := by
  cases p with
  | top r =>
    rw [selectionStep_top]
    unfold labelsOf
    constructor <;>
    · apply map_modifyTop_of_invariant
      intro g
      simp [selectAllChildren, Function.comp_def]
  | sub r c =>
    rw [selectionStep_sub]
    unfold labelsOf
    constructor <;>
    · apply map_modifyTop_of_invariant
      intro g
      unfold selectIfAllChildren
      split <;> rfl

theorem eventOn_labels_checkStates (f : Forest) (items : List ItemPtr) :
    labelsOf (itemSelectionChangedEventOn f items) = labelsOf f ∧
    (itemSelectionChangedEventOn f items).map
        (fun g => (g.checkState, g.children.map (fun l => l.checkState))) =
      f.map (fun g => (g.checkState, g.children.map (fun l => l.checkState))) := by
  induction items generalizing f with
  | nil => exact ⟨rfl, rfl⟩
  | cons p rest ih =>
    rw [eventOn_cons]
    obtain ⟨h1, h2⟩ := ih (selectionStep f p)
    obtain ⟨h3, h4⟩ := selectionStep_labels_checkStates f p
    exact ⟨h1.trans h3, h2.trans h4⟩

theorem counts_of_labelsOf_eq {f f2 : Forest} (h : labelsOf f2 = labelsOf f) :
    f2.length = f.length ∧ ∀ r, childCountAt f2 r = childCountAt f r := by
  have hlen : f2.length = f.length := by
    have := congrArg List.length h
    simpa [labelsOf] using this
  refine ⟨hlen, fun r => ?_⟩
  have hr := congrArg (fun l => (l[r]?).map (fun p => p.2.length)) h
  simp only [labelsOf, List.getElem?_map, Option.map_map] at hr
  unfold childCountAt
  cases h2 : f2[r]? <;> cases h1 : f[r]? <;> simp_all

/-- Frame of `setItemChecked`: shape, labels and selection are kept, and the only check
flag and the only group state that may change are those of the coordinate. -/
theorem setItemChecked_frame (f : Forest) (index : Index) (b : Bool) :
    ∃ f2, setItemChecked f index b = some f2 ∧
      labelsOf f2 = labelsOf f ∧ selectionOf f2 = selectionOf f ∧
      (∀ r c : Nat, ((r : Int) ≠ index.row ∨ (c : Int) ≠ index.col) →
        leafCheckAt f2 r c = leafCheckAt f r c) ∧
      (∀ r : Nat, (r : Int) ≠ index.row → groupCheckAt f2 r = groupCheckAt f r) := by
  rcases indexIsValid_cases f index with hv | hv
  · obtain ⟨r0, c0, g, l, rfl, hg, hl⟩ := indexIsValid_true hv
    obtain ⟨f2, ch, hset, -, hother, hch, hf2⟩ := setItemChecked_group hg hl b
    refine ⟨f2, hset, ?_, ?_, ?_, ?_⟩
    · have e := setItemChecked_valid hg hl b
      rw [hset] at e
      cases e
      rw [(itemClickedEvent_labels_selection _ _).1,
        (setCheckState_sub_labels_selection _ _ _ _).1]
    · have e := setItemChecked_valid hg hl b
      rw [hset] at e
      cases e
      rw [(itemClickedEvent_labels_selection _ _).2,
        (setCheckState_sub_labels_selection _ _ _ _).2]
    · intro r c hne
      unfold leafCheckAt
      by_cases hr : r = r0
      · subst hr
        have hc : c0 ≠ c := by
          rcases hne with h | h
          · exact absurd rfl h
          · intro e; apply h; simp [e]
        rw [hf2, hg]
        simp only [Option.some_bind, hch, List.getElem?_modify, hc, if_false]
        cases g.children[c]? <;> rfl
      · rw [hother r hr]
    · intro r hne
      unfold groupCheckAt
      have hr : r ≠ r0 := by
        intro e; apply hne; simp [e]
      rw [hother r hr]
  · exact ⟨f, setItemChecked_invalid b hv, rfl, rfl, fun _ _ _ => rfl, fun _ _ => rfl⟩

theorem everyGroupHasLeaf_iff_labels (f : Forest) :
    everyGroupHasLeaf f ↔ ∀ p ∈ labelsOf f, p.2 ≠ [] := by
  unfold everyGroupHasLeaf labelsOf
  simp

theorem removeItem_keeps_everyGroupHasLeaf {f f2 : Forest} {index : Index}
    (hne : everyGroupHasLeaf f) (h : removeItem f index = some f2) :
    everyGroupHasLeaf f2 ∧
    (f2.length < f.length →
      ∃ g, indexIsValid f index = some true ∧ f[index.row.toNat]? = some g ∧
        g.children.length = 1) := by
  rcases indexIsValid_cases f index with hv | hv
  · obtain ⟨r, c, g, l, rfl, hg, hl⟩ := indexIsValid_true hv
    rw [removeItem_valid hg hl] at h
    have hc : c < g.children.length := (List.getElem?_eq_some_iff.mp hl).1
    by_cases h1 : g.children.length = 1
    · rw [if_pos h1] at h
      cases h
      refine ⟨fun g' hg' => hne g' (List.mem_of_mem_eraseIdx hg'), fun _ => ?_⟩
      exact ⟨g, hv, by simpa using hg, h1⟩
    · rw [if_neg h1] at h
      cases h
      constructor
      · intro g' hg'
        obtain ⟨s, hs⟩ := List.mem_iff_getElem?.mp hg'
        by_cases hsr : s = r
        · subst hsr
          rw [modifyTop_getElem?_self _ hg] at hs
          cases hs
          intro he
          have := congrArg List.length he
          simp only [List.length_eraseIdx, hc, if_true, List.length_nil] at this
          omega
        · rw [modifyTop_getElem?_ne _ (Ne.symm hsr)] at hs
          exact hne g' (List.mem_iff_getElem?.mpr ⟨s, hs⟩)
      · intro hlt
        rw [modifyTop_length] at hlt
        omega
  · rw [removeItem_invalid hv] at h
    cases h
    exact ⟨hne, fun hlt => absurd hlt (lt_irrefl _)⟩

theorem setItemChecked_keeps_everyGroupHasLeaf {f f2 : Forest} {index : Index} {b : Bool}
    (hne : everyGroupHasLeaf f) (h : setItemChecked f index b = some f2) :
    everyGroupHasLeaf f2 := by
  obtain ⟨f3, hset, hlab, -⟩ := setItemChecked_frame f index b
  rw [h] at hset
  cases hset
  rw [everyGroupHasLeaf_iff_labels, hlab, ← everyGroupHasLeaf_iff_labels]
  exact hne

theorem parentFirstStep_marker_outside {f : Forest} {indexs res : List Index} {i : Index}
    (hc : i.col = -1) (hr : i.row < 0 ∨ i.row ≥ groupCount f) :
    parentFirstStep f indexs res i = none := by
  unfold parentFirstStep
  have hnot : ¬ i.col ≠ -1 := by simpa using hc
  rw [if_neg hnot]
  unfold groupCount at hr
  have : topLevelItem f i.row = none := by
    unfold topLevelItem
    by_cases h0 : 0 ≤ i.row
    · rw [if_pos h0]
      apply List.getElem?_eq_none
      omega
    · rw [if_neg h0]
  rw [this]
  rfl

theorem foldlM_parentFirstStep_none (f : Forest) (indexs : List Index) (l res : List Index)
    (h : ∃ i ∈ l, i.col = -1 ∧ (i.row < 0 ∨ i.row ≥ groupCount f)) :
    l.foldlM (parentFirstStep f indexs) res = none := by
  induction l generalizing res with
  | nil => obtain ⟨i, hi, -⟩ := h; cases hi
  | cons a rest ih =>
    rw [List.foldlM_cons]
    obtain ⟨i, hi, hc, hr⟩ := h
    cases hstep : parentFirstStep f indexs res a with
    | none => rfl
    | some res2 =>
      simp only [Option.bind_eq_bind, Option.some_bind]
      rcases List.mem_cons.mp hi with rfl | hrest
      · rw [parentFirstStep_marker_outside hc hr] at hstep
        cases hstep
      · exact ih res2 ⟨i, hrest, hc, hr⟩

theorem castRange_map (n : Nat) (i : Int) :
    List.map (fun j => Index.mk i j) (do let a ← List.range n; pure (a : Int)) =
      (List.range n).map (fun (j : Nat) => Index.mk i (j : Int)) := by
  simp only [List.bind_eq_flatMap, List.pure_def, List.map_flatMap, List.map_cons, List.map_nil]
  exact (List.map_eq_flatMap _ _).symm

theorem castRange_filter_map (n : Nat) (i : Int) (q : Nat → Bool) :
    List.map (fun j => Index.mk i j) (do let a ← List.filter q (List.range n); pure (a : Int)) =
      ((List.range n).filter q).map (fun (j : Nat) => Index.mk i (j : Int)) := by
  simp only [List.bind_eq_flatMap, List.pure_def, List.map_flatMap, List.map_cons, List.map_nil]
  exact (List.map_eq_flatMap _ _).symm

/-- The coordinates that `getAllIndexs` lists for the row `i`. -/
theorem getAllIndexs_eq (f : Forest) :
    getAllIndexs f = (List.range f.length).flatMap (fun i =>
      match f[i]? with
      | some p =>
        (List.range p.children.length).map (fun (j : Nat) => Index.mk (i : Int) (j : Int))
      | none => []) := by
  unfold getAllIndexs
  apply List.flatMap_congr
  intro i _
  cases f[i]? with
  | none => rfl
  | some p => exact castRange_map _ _

theorem getCheckedIndexs_eq (f : Forest) :
    getCheckedIndexs f = (List.range f.length).flatMap (fun i =>
      match f[i]? with
      | some parent =>
        ((List.range parent.children.length).filter (fun j =>
          match parent.children[j]? with
          | some c => decide (c.checkState = .Checked)
          | none => false)).map (fun (j : Nat) => Index.mk (i : Int) (j : Int))
      | none => []) := by
  unfold getCheckedIndexs
  apply List.flatMap_congr
  intro i _
  cases f[i]? with
  | none => rfl
  | some p => exact castRange_filter_map _ _ _

/-- Membership in the coordinates listed for one row. -/
theorem mem_rowIndexs (f : Forest) (i : Nat) (x : Index) :
    x ∈ (match f[i]? with
      | some p =>
        (List.range p.children.length).map (fun (j : Nat) => Index.mk (i : Int) (j : Int))
      | none => []) ↔
    ∃ (p : Group) (j : Nat), f[i]? = some p ∧ j < p.children.length ∧
      x = Index.mk (i : Int) (j : Int) := by
  cases h : f[i]? with
  | none => simp
  | some p =>
    simp only [List.mem_map, List.mem_range, Option.some.injEq]
    constructor
    · rintro ⟨j, hj, rfl⟩; exact ⟨p, j, rfl, hj, rfl⟩
    · rintro ⟨q, j, rfl, hj, rfl⟩; exact ⟨j, hj, rfl⟩

theorem mem_getAllIndexs (f : Forest) (x : Index) :
    x ∈ getAllIndexs f ↔ indexIsValid f x = some true := by
  rw [getAllIndexs_eq, List.mem_flatMap]
  constructor
  · rintro ⟨i, -, hx⟩
    obtain ⟨p, j, hp, hj, rfl⟩ := (mem_rowIndexs f i x).mp hx
    exact indexIsValid_of_getElem hp (List.getElem?_eq_getElem hj)
  · intro hv
    obtain ⟨r, c, g, l, rfl, hg, hl⟩ := indexIsValid_true hv
    have hr : r < f.length := (List.getElem?_eq_some_iff.mp hg).1
    have hc : c < g.children.length := (List.getElem?_eq_some_iff.mp hl).1
    exact ⟨r, List.mem_range.mpr hr, (mem_rowIndexs f r _).mpr ⟨g, c, hg, hc, rfl⟩⟩

theorem getAllIndexs_pairwise_lexLt (f : Forest) : List.Pairwise lexLt (getAllIndexs f) := by
  rw [getAllIndexs_eq, List.pairwise_flatMap]
  constructor
  · intro i _
    cases h : f[i]? with
    | none => exact List.Pairwise.nil
    | some p =>
      simp only
      rw [List.pairwise_map]
      refine List.Pairwise.imp ?_ (List.pairwise_lt_range p.children.length)
      intro a b hab
      right
      exact ⟨rfl, by simpa using hab⟩
  · refine List.Pairwise.imp ?_ (List.pairwise_lt_range f.length)
    intro a b hab x hx y hy
    obtain ⟨_, _, _, _, rfl⟩ := (mem_rowIndexs f a x).mp hx
    obtain ⟨_, _, _, _, rfl⟩ := (mem_rowIndexs f b y).mp hy
    left
    simpa using hab

theorem lexLt_irrefl (a : Index) : ¬ lexLt a a := by
  unfold lexLt; omega

theorem lexLe_of_lexLt {a b : Index} (h : lexLt a b) : lexLe a b := by
  unfold lexLt at h; unfold lexLe; omega

theorem leafCheckedAt_natCast (f : Forest) (i j : Nat) (parent : Group)
    (h : f[i]? = some parent) :
    leafCheckedAt f (Index.mk i j) =
      (match parent.children[j]? with
        | some c => decide (c.checkState = .Checked)
        | none => false) := by
  simp only [leafCheckedAt, topLevelItem_natCast, h, Group.child, Int.natCast_nonneg, if_true,
    Int.toNat_ofNat]

theorem getCheckedIndexs_eq_filter (f : Forest) :
    getCheckedIndexs f = (getAllIndexs f).filter (leafCheckedAt f) := by
  rw [getCheckedIndexs_eq, getAllIndexs_eq, List.filter_flatMap]
  apply List.flatMap_congr
  intro i _
  cases h : f[i]? with
  | none => rfl
  | some parent =>
    simp only
    rw [List.filter_map]
    congr 1
    apply List.filter_congr
    intro j _
    simp only [Function.comp, leafCheckedAt_natCast f i j parent h]

theorem parentFirstBlock_marker (f : Forest) (indexs : List Index) (i : Index)
    (hc : i.col = -1) :
    parentFirstBlock f indexs i =
      (List.range (leafCount f i.row).toNat).map (fun (j : Nat) => Index.mk i.row (j : Int)) := by
  unfold parentFirstBlock
  have hnot : ¬ i.col ≠ -1 := by simpa using hc
  rw [if_neg hnot]
  exact castRange_map _ _

theorem mem_parentFirstBlock (f : Forest) (indexs : List Index) (i x : Index) :
    x ∈ parentFirstBlock f indexs i ↔
      (i.col ≠ -1 ∧ Index.mk i.row (-1) ∉ indexs ∧ x = i) ∨
      (i.col = -1 ∧ x.row = i.row ∧ 0 ≤ x.col ∧ x.col < leafCount f i.row) := by
  by_cases hc : i.col = -1
  · rw [parentFirstBlock_marker f indexs i hc]
    simp only [List.mem_map, List.mem_range, hc, ne_eq, not_true_eq_false, false_and, false_or,
      true_and]
    constructor
    · rintro ⟨j, hj, rfl⟩
      refine ⟨rfl, ?_, ?_⟩
      · simp
      · simp only; omega
    · rintro ⟨h1, h2, h3⟩
      refine ⟨x.col.toNat, by omega, ?_⟩
      cases x
      simp only [Index.mk.injEq] at *
      exact ⟨h1.symm, by omega⟩
  · unfold parentFirstBlock
    have hne : i.col ≠ -1 := hc
    rw [if_pos hne]
    by_cases hm : Index.mk i.row (-1) ∈ indexs
    · simp [hm, hc]
    · simp [hm, hc]

theorem parentFirstBlock_nodup (f : Forest) (indexs : List Index) (i : Index) :
    (parentFirstBlock f indexs i).Nodup := by
  by_cases hc : i.col = -1
  · rw [parentFirstBlock_marker f indexs i hc]
    apply List.Nodup.map _ (List.nodup_range _)
    intro a b hab
    simp only [Index.mk.injEq, true_and] at hab
    exact_mod_cast hab
  · unfold parentFirstBlock
    have hne : i.col ≠ -1 := hc
    rw [if_pos hne]
    split
    · exact List.nodup_nil
    · exact List.nodup_singleton _

theorem derivedTriState_map_selected (l : List Leaf) (b : Bool) :
    derivedTriState (l.map (fun x => { x with selected := b })) = derivedTriState l := by
  unfold derivedTriState
  simp only [List.all_map, Function.comp_def]

/-- Every item of the tree after `setCurrentItem` on a top-level item is an item of the tree
before it with other selected flags. -/
theorem mem_setCurrentItem_top {f : Forest} {r : Nat} {g2 : Group}
    (h : g2 ∈ setCurrentItem f (.top r)) :
    ∃ g ∈ f, g2.checkState = g.checkState ∧
      g2.children = g.children.map (fun x => { x with selected := false }) := by
  have e : setCurrentItem f (.top r) =
      modifyTop (clearSelection f) r (fun g => { g with selected := true }) := rfl
  rw [e] at h
  obtain ⟨s, hs⟩ := List.mem_iff_getElem?.mp h
  rw [getElem?_modifyTop] at hs
  have hcl : (clearSelection f)[s]? = (f[s]?).map (fun g =>
      { g with selected := false,
               children := g.children.map (fun l => { l with selected := false }) }) := by
    simp [clearSelection]
  rw [hcl] at hs
  cases hg : f[s]? with
  | none => simp [hg] at hs
  | some g =>
    have hmem : g ∈ f := List.mem_iff_getElem?.mpr ⟨s, hg⟩
    refine ⟨g, hmem, ?_⟩
    by_cases hrs : r = s
    · simp only [hrs, if_true, hg, Option.map_some', Option.some.injEq] at hs
      subst hs
      exact ⟨rfl, rfl⟩
    · simp only [hrs, if_false, hg, Option.map_some', Option.some.injEq] at hs
      subst hs
      exact ⟨rfl, rfl⟩

theorem setCurrentItem_top_triStateConsistent {f : Forest} (r : Nat)
    (h : triStateConsistent f) : triStateConsistent (setCurrentItem f (.top r)) := by
  intro g2 hg2
  obtain ⟨g, hg, hst, hch⟩ := mem_setCurrentItem_top hg2
  rw [hst, hch, derivedTriState_map_selected]
  exact h g hg

theorem setCurrentItem_top_leavesBinary {f : Forest} (r : Nat)
    (h : leavesBinary f) : leavesBinary (setCurrentItem f (.top r)) := by
  intro g2 hg2 l hl
  obtain ⟨g, hg, -, hch⟩ := mem_setCurrentItem_top hg2
  rw [hch, List.mem_map] at hl
  obtain ⟨x, hx, rfl⟩ := hl
  exact h g hg x hx

theorem triStateConsistent_append_checkedItems {f : Forest} (h : triStateConsistent f)
    (l : List String) : triStateConsistent (f ++ l.map checkedItem) := by
  intro g hg
  rcases List.mem_append.mp hg with h1 | h1
  · exact h g h1
  · obtain ⟨s, -, rfl⟩ := List.mem_map.mp h1
    rfl

theorem leavesBinary_append_checkedItems {f : Forest} (h : leavesBinary f)
    (l : List String) : leavesBinary (f ++ l.map checkedItem) := by
  intro g hg x hx
  rcases List.mem_append.mp hg with h1 | h1
  · exact h g h1 x hx
  · obtain ⟨s, -, rfl⟩ := List.mem_map.mp h1
    cases hx

/-- `addItem` returns, and returns a forest that is consistent when the given one is; the
same for the leaf flags being `Checked` or `Unchecked`. -/
theorem addItem_keeps_triStateConsistent (f : Forest) (index : Index)
    (parent_id child_id : String) (selected : Bool) :
    ∃ f2, addItem f index parent_id child_id selected = some f2 ∧
      (triStateConsistent f → triStateConsistent f2) ∧
      (leavesBinary f → leavesBinary f2) := by
  by_cases h : index.row ≤ -1 ∨ index.row > topLevelItemCount f
  · rw [addItem_outside f index parent_id child_id selected h]
    refine ⟨_, rfl, ?_, ?_⟩
    · intro hc
      have := triStateConsistent_append_checkedItems hc [parent_id, child_id]
      cases selected
      · exact this
      · exact setCurrentItem_top_triStateConsistent _ this
    · intro hb
      have := leavesBinary_append_checkedItems hb [parent_id, child_id]
      cases selected
      · exact this
      · exact setCurrentItem_top_leavesBinary _ this
  · rw [addItem_inside f index parent_id child_id selected h]
    refine ⟨_, rfl, ?_, ?_⟩
    · intro hc
      have := triStateConsistent_append_checkedItems hc [child_id]
      cases selected
      · exact this
      · exact setCurrentItem_top_triStateConsistent _ this
    · intro hb
      have := leavesBinary_append_checkedItems hb [child_id]
      cases selected
      · exact this
      · exact setCurrentItem_top_leavesBinary _ this

/-! ## The properties of the specification -/

/-- C1: after `setItemChecked` at a valid coordinate of a forest whose leaf flags are all
`Checked` or `Unchecked`, the call returns, the leaf at the coordinate holds the requested
flag, and the stored state of its group is the state derived from the flags of the leaves
of the group as they are after the call. -/
theorem setItemChecked_group_state_derived (f : Forest) (index : Index) (b : Bool)
    (hbin : leavesBinary f) (hv : indexIsValid f index = some true) :
    ∃ f2 g2 l2, setItemChecked f index b = some f2 ∧
      f2[index.row.toNat]? = some g2 ∧ g2.children[index.col.toNat]? = some l2 ∧
      l2.checkState = (if b then CheckState.Checked else CheckState.Unchecked) ∧
      g2.checkState = derivedTriState g2.children := by
  obtain ⟨r, c, g, l, rfl, hg, hl⟩ := indexIsValid_true hv
  have hgm : g ∈ f := List.mem_iff_getElem?.mpr ⟨r, hg⟩
  obtain ⟨f2, g2, hset, -, -, hf2, hchc, hder, -⟩ :=
    setItemChecked_group_derived hg hl (hbin g hgm) b
  exact ⟨f2, g2, _, hset, by simpa using hf2, by simpa using hchc, rfl, hder⟩

/-- Scenario of C1: group 0 holds L0 (checked), L1 (checked) and L2 (unchecked); unchecking
L0 leaves the group partially checked. -/
theorem setItemChecked_group_state_derived_witness :
    (∃ f2 g2 l2, setItemChecked scenarioMixed (Index.mk 0 0) false = some f2 ∧
      f2[(Index.mk 0 0).row.toNat]? = some g2 ∧
      g2.children[(Index.mk 0 0).col.toNat]? = some l2 ∧
      l2.checkState = (if false then CheckState.Checked else CheckState.Unchecked) ∧
      g2.checkState = derivedTriState g2.children) ∧
    (setItemChecked scenarioMixed (Index.mk 0 0) false).map (List.map Group.checkState) =
      some [CheckState.PartiallyChecked] :=
  ⟨setItemChecked_group_state_derived scenarioMixed (Index.mk 0 0) false (by decide) (by decide),
    by decide⟩

/-- C3: at a valid coordinate `(row, col)`, `removeItem` returns; when group `row` has
exactly one leaf the result is the forest with the group at `row` erased (one group fewer,
the groups before `row` in place, the later ones moved up by one); otherwise the group count
and every other group are unchanged and the leaves of group `row` are the former ones with
the element at `col` erased: leaves before `col` keep their position, a leaf formerly at
`j > col` is at `j - 1`, and the label, stored state and selected flag of the group are
kept. -/
theorem removeItem_sole_leaf_or_shift (f : Forest) (index : Index)
    (hv : indexIsValid f index = some true) :
    ∃ g f2, f[index.row.toNat]? = some g ∧ removeItem f index = some f2 ∧
      (g.children.length = 1 →
        f2 = f.eraseIdx index.row.toNat ∧ f2.length + 1 = f.length ∧
        (∀ s, s < index.row.toNat → f2[s]? = f[s]?) ∧
        (∀ s, index.row.toNat ≤ s → f2[s]? = f[s + 1]?)) ∧
      (g.children.length ≠ 1 →
        f2.length = f.length ∧
        (∀ s, s ≠ index.row.toNat → f2[s]? = f[s]?) ∧
        ∃ g2, f2[index.row.toNat]? = some g2 ∧
          g2.children = g.children.eraseIdx index.col.toNat ∧
          g2.children.length + 1 = g.children.length ∧
          g2.text = g.text ∧ g2.checkState = g.checkState ∧ g2.selected = g.selected ∧
          (∀ j, j < index.col.toNat → g2.children[j]? = g.children[j]?) ∧
          (∀ j, index.col.toNat < j → g2.children[j - 1]? = g.children[j]?)) := by
  obtain ⟨r, c, g, l, rfl, hg, hl⟩ := indexIsValid_true hv
  have hr : r < f.length := (List.getElem?_eq_some_iff.mp hg).1
  have hc : c < g.children.length := (List.getElem?_eq_some_iff.mp hl).1
  refine ⟨g, _, by simpa using hg, removeItem_valid hg hl, ?_, ?_⟩
  · intro h1
    rw [if_pos h1]
    have e1 : (Index.mk (r : Int) (c : Int)).row.toNat = r := by simp
    rw [e1]
    refine ⟨rfl, ?_, ?_, ?_⟩
    · rw [List.length_eraseIdx]; simp [hr]; omega
    · intro s hs; rw [List.getElem?_eraseIdx]; simp [hs]
    · intro s hs
      rw [List.getElem?_eraseIdx]
      have : ¬ s < r := by omega
      simp [this]
  · intro h1
    rw [if_neg h1]
    have e1 : (Index.mk (r : Int) (c : Int)).row.toNat = r := by simp
    have e2 : (Index.mk (r : Int) (c : Int)).col.toNat = c := by simp
    rw [e1, e2]
    refine ⟨modifyTop_length _ _ _, ?_, ?_⟩
    · intro s hs; exact modifyTop_getElem?_ne _ (Ne.symm hs)
    · refine ⟨_, modifyTop_getElem?_self _ hg, rfl, ?_, rfl, rfl, rfl, ?_, ?_⟩
      · simp only [List.length_eraseIdx, hc, if_true]; omega
      · intro j hj; simp only [List.getElem?_eraseIdx, hj, if_true]
      · intro j hj
        have h2 : ¬ (j - 1 < c) := by omega
        have h3 : j - 1 + 1 = j := by omega
        simp only [List.getElem?_eraseIdx, h2, if_false, h3]

/-- Instance of C3 at the first leaf of a group of two leaves. -/
theorem removeItem_sole_leaf_or_shift_witness :
    ∃ g f2, scenarioTwoGroups[(Index.mk 0 0).row.toNat]? = some g ∧
      removeItem scenarioTwoGroups (Index.mk 0 0) = some f2 ∧
      (g.children.length = 1 →
        f2 = scenarioTwoGroups.eraseIdx (Index.mk 0 0).row.toNat ∧
        f2.length + 1 = scenarioTwoGroups.length ∧
        (∀ s, s < (Index.mk 0 0).row.toNat → f2[s]? = scenarioTwoGroups[s]?) ∧
        (∀ s, (Index.mk 0 0).row.toNat ≤ s → f2[s]? = scenarioTwoGroups[s + 1]?)) ∧
      (g.children.length ≠ 1 →
        f2.length = scenarioTwoGroups.length ∧
        (∀ s, s ≠ (Index.mk 0 0).row.toNat → f2[s]? = scenarioTwoGroups[s]?) ∧
        ∃ g2, f2[(Index.mk 0 0).row.toNat]? = some g2 ∧
          g2.children = g.children.eraseIdx (Index.mk 0 0).col.toNat ∧
          g2.children.length + 1 = g.children.length ∧
          g2.text = g.text ∧ g2.checkState = g.checkState ∧ g2.selected = g.selected ∧
          (∀ j, j < (Index.mk 0 0).col.toNat → g2.children[j]? = g.children[j]?) ∧
          (∀ j, (Index.mk 0 0).col.toNat < j → g2.children[j - 1]? = g.children[j]?)) :=
  removeItem_sole_leaf_or_shift scenarioTwoGroups (Index.mk 0 0) (by decide)

/-- C4: in a forest whose groups all have a leaf, after one run of the selection handler
over the selected items in any order, every group that was selected has all its leaves
selected and every group whose leaves were all selected is selected; the handler keeps the
number of groups and of leaves. -/
theorem selectionChanged_cascades (f : Forest) (items : List ItemPtr)
    (hne : ∀ g ∈ f, g.children ≠ []) (hperm : items.Perm (selectedItems f)) :
    (itemSelectionChangedEventOn f items).length = f.length ∧
    (∀ r, childCountAt (itemSelectionChangedEventOn f items) r = childCountAt f r) ∧
    (∀ r, groupSelected f r = true →
      allLeavesSelected (itemSelectionChangedEventOn f items) r) ∧
    (∀ r, r < f.length → allLeavesSelected f r →
      groupSelected (itemSelectionChangedEventOn f items) r = true) := by
  refine ⟨eventOn_length f items, eventOn_childCountAt f items, ?_, ?_⟩
  · intro r hsel
    exact eventOn_of_top_mem (hperm.mem_iff.mpr ((mem_selectedItems_top f r).mpr hsel))
  · intro r hr hall
    have h0 : leafSelected f r 0 = true := hall 0 (childCountAt_pos_of_nonempty hne hr)
    exact eventOn_of_sub_mem (hperm.mem_iff.mpr ((mem_selectedItems_sub f r 0).mpr h0)) hr hall

/-- Instance of C4 with the selected items visited in reverse tree order. -/
theorem selectionChanged_cascades_witness :
    (itemSelectionChangedEventOn scenarioSelection
        (selectedItems scenarioSelection).reverse).length = scenarioSelection.length ∧
    (∀ r, childCountAt (itemSelectionChangedEventOn scenarioSelection
        (selectedItems scenarioSelection).reverse) r = childCountAt scenarioSelection r) ∧
    (∀ r, groupSelected scenarioSelection r = true →
      allLeavesSelected (itemSelectionChangedEventOn scenarioSelection
        (selectedItems scenarioSelection).reverse) r) ∧
    (∀ r, r < scenarioSelection.length → allLeavesSelected scenarioSelection r →
      groupSelected (itemSelectionChangedEventOn scenarioSelection
        (selectedItems scenarioSelection).reverse) r = true) :=
  selectionChanged_cascades scenarioSelection (selectedItems scenarioSelection).reverse
    (by decide) (List.reverse_perm _)

/-- C5: the selection handler is idempotent. Running it over the items selected in `f`,
visited in any order, and then again over the items selected in the result, visited in any
order, gives the result of the first run. -/
theorem selectionChanged_idempotent (f : Forest) (items1 items2 : List ItemPtr)
    (h1 : items1.Perm (selectedItems f))
    (h2 : items2.Perm (selectedItems (itemSelectionChangedEventOn f items1))) :
    itemSelectionChangedEventOn (itemSelectionChangedEventOn f items1) items2 =
      itemSelectionChangedEventOn f items1 := by
  apply eventOn_eq_self
  · intro r hsel
    exact eventOn_closed_down (fun p hp => h1.mem_iff.mpr hp) r hsel
  · intro r hr hpos hall
    rw [eventOn_length] at hr
    rw [eventOn_childCountAt] at hpos
    exact eventOn_closed_up (fun p => h1.mem_iff) r hr hpos hall
  · intro p hp
    exact h2.mem_iff.mp hp

/-- Instance of C5 with the first run in reverse tree order and the second in tree order. -/
theorem selectionChanged_idempotent_witness :
    itemSelectionChangedEventOn
        (itemSelectionChangedEventOn scenarioSelection (selectedItems scenarioSelection).reverse)
        (selectedItems (itemSelectionChangedEventOn scenarioSelection
          (selectedItems scenarioSelection).reverse)) =
      itemSelectionChangedEventOn scenarioSelection (selectedItems scenarioSelection).reverse :=
  selectionChanged_idempotent scenarioSelection (selectedItems scenarioSelection).reverse _
    (List.reverse_perm _) (List.Perm.refl _)

/-- C6: `indexIsValid` always returns (it never dereferences a missing top-level item), it
returns true exactly for `0 <= row < groupCount` and `0 <= col < leafCount(row)`, and so it
returns false for a negative row, a row at or beyond the group count, a column below -1 and
a column at or beyond the leaf count of a valid row. -/
theorem indexIsValid_iff_in_bounds (f : Forest) (index : Index) :
    (∃ b, indexIsValid f index = some b) ∧
    (indexIsValid f index = some true ↔
      (0 ≤ index.row ∧ index.row < groupCount f ∧
        0 ≤ index.col ∧ index.col < leafCount f index.row)) ∧
    (index.row < 0 → indexIsValid f index = some false) ∧
    (index.row ≥ groupCount f → indexIsValid f index = some false) ∧
    (index.col < -1 → indexIsValid f index = some false) ∧
    (0 ≤ index.row → index.row < groupCount f → index.col ≥ leafCount f index.row →
      indexIsValid f index = some false) := by
  rw [indexIsValid_eq]
  refine ⟨⟨_, rfl⟩, by simp, ?_, ?_, ?_, ?_⟩
  · intro h
    simp only [Option.some.injEq, decide_eq_false_iff_not]
    omega
  · intro h
    simp only [Option.some.injEq, decide_eq_false_iff_not]
    omega
  · intro h
    simp only [Option.some.injEq, decide_eq_false_iff_not]
    omega
  · intro _ _ h
    simp only [Option.some.injEq, decide_eq_false_iff_not]
    omega

/-- C7: `addItem` returns for every forest and every coordinate and never adds a leaf: the
total number of leaves is the same before and after, the top level grows by two items for
a row outside `0..count` and by one item otherwise; on the empty forest, at row 0 (the
group count), the outcome is one childless top-level item. -/
theorem addItem_total_adds_no_leaf (f : Forest) (index : Index) (parent_id child_id : String)
    (selected : Bool) :
    (∃ f2, addItem f index parent_id child_id selected = some f2 ∧
      leafTotal f2 = leafTotal f ∧
      f2.length =
        (if index.row ≤ -1 ∨ index.row > topLevelItemCount f then f.length + 2
          else f.length + 1)) ∧
    addItem [] (Index.mk 0 0) "G" "L" false = some [checkedItem "L"] ∧
    leafTotal [checkedItem "L"] = 0 := by
  refine ⟨?_, rfl, rfl⟩
  by_cases h : index.row ≤ -1 ∨ index.row > topLevelItemCount f
  · rw [addItem_outside f index parent_id child_id selected h, if_pos h]
    refine ⟨_, rfl, ?_, ?_⟩
    · cases selected
      · simp [leafTotal_append, leafTotal, checkedItem]
      · simp only [if_true, leafTotal_setCurrentItem, leafTotal_append]
        simp [leafTotal, checkedItem]
    · cases selected
      · simp
      · simp [length_setCurrentItem]
  · rw [addItem_inside f index parent_id child_id selected h, if_neg h]
    refine ⟨_, rfl, ?_, ?_⟩
    · cases selected
      · simp [leafTotal_append, leafTotal, checkedItem]
      · simp only [if_true, leafTotal_setCurrentItem, leafTotal_append]
        simp [leafTotal, checkedItem]
    · cases selected
      · simp
      · simp [length_setCurrentItem]

/-- C8: on the empty forest `addItem` at `(-1, -1)` with labels G1 and L1 and `selected`
set yields two top-level items, G1 and the selected L1, neither with a child, so
`getAllIndexs` is empty afterwards (the claim expects one group G1 holding the leaf L1 and
`[(0,0)]`). -/
theorem addItem_empty_forest_scenario :
    addItem [] (Index.mk (-1) (-1)) "G1" "L1" true =
      some [checkedItem "G1", { checkedItem "L1" with selected := true }] ∧
    (addItem [] (Index.mk (-1) (-1)) "G1" "L1" true).map getAllIndexs = some [] ∧
    (addItem [] (Index.mk (-1) (-1)) "G1" "L1" true).map List.length = some 2 := by
  refine ⟨rfl, rfl, rfl⟩

/-- C9: on the forest of two groups `addItem` at `(0, 0)` (column in range) and at `(0, 5)`
(column out of range) both append one childless top-level item with the leaf label and
leave group 0 with its two leaves (the claim expects the new leaf in group 0 and the group
count unchanged). -/
theorem addItem_existing_group_scenario :
    addItem scenarioTwoGroups (Index.mk 0 0) "G" "L" false =
      some (scenarioTwoGroups ++ [checkedItem "L"]) ∧
    addItem scenarioTwoGroups (Index.mk 0 5) "G" "L" false =
      some (scenarioTwoGroups ++ [checkedItem "L"]) ∧
    (scenarioTwoGroups ++ [checkedItem "L"]).length = scenarioTwoGroups.length + 1 ∧
    leafCount (scenarioTwoGroups ++ [checkedItem "L"]) 0 = leafCount scenarioTwoGroups 0 := by
  refine ⟨rfl, rfl, rfl, rfl⟩

/-- C10: when every marker `(row, -1)` of the input has its row inside the forest, the
parent-first ordering returns the concatenation, in input order, of the block of each
input element (`parentFirstBlock`); so with two leaves in group 0 and one in group 1 the
input `[(0,-1), (0,1), (1,0)]` gives `[(0,0), (0,1), (1,0)]`. -/
theorem getSortedIndexs_parentFirst_blocks (f : Forest) (indexs : List Index)
    (h : ∀ i ∈ indexs, i.col = -1 → 0 ≤ i.row ∧ i.row < groupCount f) :
    getSortedIndexs f .PARENTFIRST indexs =
      some (indexs.flatMap (parentFirstBlock f indexs)) ∧
    (∀ (g0 g1 : Group) (rest : Forest), g0.children.length = 2 → g1.children.length = 1 →
      getSortedIndexs (g0 :: g1 :: rest) .PARENTFIRST
          [Index.mk 0 (-1), Index.mk 0 1, Index.mk 1 0] =
        some [Index.mk 0 0, Index.mk 0 1, Index.mk 1 0]) := by
  constructor
  · have := foldlM_parentFirstStep f indexs indexs [] h
    simpa [getSortedIndexs] using this
  · intro g0 g1 rest h0 h1
    have hm : ∀ i ∈ [Index.mk 0 (-1), Index.mk 0 1, Index.mk 1 0], i.col = -1 →
        0 ≤ i.row ∧ i.row < groupCount (g0 :: g1 :: rest) := by
      intro i hi hc
      simp only [List.mem_cons, List.mem_singleton, List.not_mem_nil, or_false] at hi
      rcases hi with rfl | rfl | rfl
      · simp [groupCount]; omega
      · simp at hc
      · simp at hc
    have := foldlM_parentFirstStep (g0 :: g1 :: rest)
      [Index.mk 0 (-1), Index.mk 0 1, Index.mk 1 0] _ [] hm
    simp only [getSortedIndexs, this]
    simp [parentFirstBlock, leafCount, topLevelItem, Group.childCount, h0, List.range_succ]

/-- Scenario of C10 on the forest with two leaves in group 0 and one leaf in group 1. -/
theorem getSortedIndexs_parentFirst_blocks_witness :
    getSortedIndexs scenarioTwoGroups .PARENTFIRST
        [Index.mk 0 (-1), Index.mk 0 1, Index.mk 1 0] =
      some [Index.mk 0 0, Index.mk 0 1, Index.mk 1 0] ∧
    [Index.mk 0 (-1), Index.mk 0 1, Index.mk 1 0].flatMap
        (parentFirstBlock scenarioTwoGroups [Index.mk 0 (-1), Index.mk 0 1, Index.mk 1 0]) =
      [Index.mk 0 0, Index.mk 0 1, Index.mk 1 0] :=
  ⟨((getSortedIndexs_parentFirst_blocks scenarioTwoGroups
      [Index.mk 0 (-1), Index.mk 0 1, Index.mk 1 0] (by decide)).1).trans (by decide),
    by decide⟩

/-- C11: the ascending ordering returns a permutation of the input in which every element
stands before the later ones in the lexicographic order, row first (so any two adjacent
results `a`, `b` have `a.row < b.row`, or `a.row = b.row` and `a.col <= b.col`); it is the
only such list, and it is the same for every forest. -/
theorem getSortedIndexs_ascending_sorted_perm (f : Forest) (indexs : List Index) :
    ∃ res, getSortedIndexs f .ASCENDING indexs = some res ∧
      res.Perm indexs ∧
      List.Chain' (fun a b => a.row < b.row ∨ (a.row = b.row ∧ a.col ≤ b.col)) res ∧
      List.Pairwise lexLe res ∧
      (∀ other : List Index, other.Perm indexs → List.Pairwise lexLe other → other = res) ∧
      (∀ f2 : Forest, getSortedIndexs f2 .ASCENDING indexs = some res) := by
  refine ⟨stdSort ascLess indexs, rfl, stdSort_perm _ _, ?_, stdSort_ascLess_pairwise _,
    fun other hp hs => stdSort_ascLess_unique hp hs, fun _ => rfl⟩
  exact List.Pairwise.chain' (stdSort_ascLess_pairwise indexs)

/-- Instance of C11 on an input with a repeated coordinate and a marker. -/
theorem getSortedIndexs_ascending_sorted_perm_witness :
    (∃ res, getSortedIndexs scenarioTwoGroups .ASCENDING
        [Index.mk 1 0, Index.mk 0 1, Index.mk 0 (-1), Index.mk 0 1] = some res ∧
      res.Perm [Index.mk 1 0, Index.mk 0 1, Index.mk 0 (-1), Index.mk 0 1] ∧
      List.Chain' (fun a b => a.row < b.row ∨ (a.row = b.row ∧ a.col ≤ b.col)) res ∧
      List.Pairwise lexLe res ∧
      (∀ other : List Index,
        other.Perm [Index.mk 1 0, Index.mk 0 1, Index.mk 0 (-1), Index.mk 0 1] →
          List.Pairwise lexLe other → other = res) ∧
      (∀ f2 : Forest, getSortedIndexs f2 .ASCENDING
        [Index.mk 1 0, Index.mk 0 1, Index.mk 0 (-1), Index.mk 0 1] = some res)) ∧
    getSortedIndexs scenarioTwoGroups .ASCENDING
        [Index.mk 1 0, Index.mk 0 1, Index.mk 0 (-1), Index.mk 0 1] =
      some [Index.mk 0 (-1), Index.mk 0 1, Index.mk 0 1, Index.mk 1 0] :=
  ⟨getSortedIndexs_ascending_sorted_perm scenarioTwoGroups
      [Index.mk 1 0, Index.mk 0 1, Index.mk 0 (-1), Index.mk 0 1], by decide⟩

/-- C12: for a coordinate on which `indexIsValid` is false, that is one with `row < 0`,
`row >= groupCount`, `col <= -1` or `col >= leafCount(row)`, `removeItem` and
`setItemChecked` with either flag return, and return the forest they were given: groups,
leaves, check flags, group states and selection are all as before. -/
theorem invalid_coordinate_is_noop (f : Forest) (index : Index)
    (hv : indexIsValid f index = some false) :
    (index.row < 0 ∨ index.row ≥ groupCount f ∨ index.col ≤ -1 ∨
      index.col ≥ leafCount f index.row) ∧
    removeItem f index = some f ∧
    setItemChecked f index true = some f ∧
    setItemChecked f index false = some f :=
  ⟨(indexIsValid_false_iff f index).mp hv, removeItem_invalid hv,
    setItemChecked_invalid true hv, setItemChecked_invalid false hv⟩

/-- Instance of C12 at a column equal to the leaf count of its group. -/
theorem invalid_coordinate_is_noop_witness :
    ((Index.mk 0 2).row < 0 ∨ (Index.mk 0 2).row ≥ groupCount scenarioTwoGroups ∨
      (Index.mk 0 2).col ≤ -1 ∨
      (Index.mk 0 2).col ≥ leafCount scenarioTwoGroups (Index.mk 0 2).row) ∧
    removeItem scenarioTwoGroups (Index.mk 0 2) = some scenarioTwoGroups ∧
    setItemChecked scenarioTwoGroups (Index.mk 0 2) true = some scenarioTwoGroups ∧
    setItemChecked scenarioTwoGroups (Index.mk 0 2) false = some scenarioTwoGroups :=
  invalid_coordinate_is_noop scenarioTwoGroups (Index.mk 0 2) (by decide)

/-- C13: the empty forest has a leaf in every group, and on it `addItem` at `(-1, -1)`
yields two top-level items without a leaf, so the predicate is lost by insertion;
`removeItem` and `setItemChecked` keep the predicate, and `removeItem` returns fewer groups
only when the coordinate is valid and its group had exactly one leaf. -/
theorem addItem_breaks_everyGroupHasLeaf :
    everyGroupHasLeaf [] ∧
    addItem [] (Index.mk (-1) (-1)) "G1" "L1" false =
      some [checkedItem "G1", checkedItem "L1"] ∧
    ¬ everyGroupHasLeaf [checkedItem "G1", checkedItem "L1"] ∧
    (∀ (f : Forest) (index : Index) (f2 : Forest),
      everyGroupHasLeaf f → removeItem f index = some f2 →
        everyGroupHasLeaf f2 ∧
        (f2.length < f.length →
          ∃ g, indexIsValid f index = some true ∧ f[index.row.toNat]? = some g ∧
            g.children.length = 1)) ∧
    (∀ (f : Forest) (index : Index) (b : Bool) (f2 : Forest),
      everyGroupHasLeaf f → setItemChecked f index b = some f2 → everyGroupHasLeaf f2) :=
  ⟨by decide, rfl, by decide,
    fun _ _ _ hne h => removeItem_keeps_everyGroupHasLeaf hne h,
    fun _ _ _ _ hne h => setItemChecked_keeps_everyGroupHasLeaf hne h⟩

/-- C14: the parent-first ordering faults on a marker `(row, -1)` whose row is outside the
forest: on the empty forest with the input `[(0,-1)]`, on the forest of two groups with a
marker at row 2 or at row -1, and for every forest and every input holding such a
marker. -/
theorem getSortedIndexs_parentFirst_faults :
    getSortedIndexs [] .PARENTFIRST [Index.mk 0 (-1)] = none ∧
    getSortedIndexs scenarioTwoGroups .PARENTFIRST [Index.mk 0 0, Index.mk 2 (-1)] = none ∧
    getSortedIndexs scenarioTwoGroups .PARENTFIRST [Index.mk (-1) (-1)] = none ∧
    (∀ (f : Forest) (indexs : List Index),
      (∃ i ∈ indexs, i.col = -1 ∧ (i.row < 0 ∨ i.row ≥ groupCount f)) →
        getSortedIndexs f .PARENTFIRST indexs = none) :=
  ⟨rfl, rfl, rfl, fun f indexs h => foldlM_parentFirstStep_none f indexs indexs [] h⟩

/-- C15: `setItemChecked` (any coordinate, any flag), `itemClickedEvent` (any item) and the
selection handler (any list of visited items) keep the group count, the leaf count of
every group and all labels; `setItemChecked` returns, changes no selection flag, no leaf
check flag other than the one at its coordinate and no group state other than that of
the group at its row. -/
theorem flag_operations_keep_shape (f : Forest) (index : Index) (b : Bool) (item : ItemPtr)
    (items : List ItemPtr) :
    (∃ f2, setItemChecked f index b = some f2 ∧
      labelsOf f2 = labelsOf f ∧ f2.length = f.length ∧
      (∀ r, childCountAt f2 r = childCountAt f r) ∧
      selectionOf f2 = selectionOf f ∧
      (∀ r c : Nat, ((r : Int) ≠ index.row ∨ (c : Int) ≠ index.col) →
        leafCheckAt f2 r c = leafCheckAt f r c) ∧
      (∀ r : Nat, (r : Int) ≠ index.row → groupCheckAt f2 r = groupCheckAt f r)) ∧
    (labelsOf (itemClickedEvent f item) = labelsOf f ∧
      (itemClickedEvent f item).length = f.length ∧
      (∀ r, childCountAt (itemClickedEvent f item) r = childCountAt f r)) ∧
    (labelsOf (itemSelectionChangedEventOn f items) = labelsOf f ∧
      (itemSelectionChangedEventOn f items).length = f.length ∧
      (∀ r, childCountAt (itemSelectionChangedEventOn f items) r = childCountAt f r)) := by
  refine ⟨?_, ?_, ?_⟩
  · obtain ⟨f2, hset, hlab, hsel, hleaf, hgrp⟩ := setItemChecked_frame f index b
    have hc := counts_of_labelsOf_eq hlab
    exact ⟨f2, hset, hlab, hc.1, hc.2, hsel, hleaf, hgrp⟩
  · have hlab := (itemClickedEvent_labels_selection f item).1
    have hc := counts_of_labelsOf_eq hlab
    exact ⟨hlab, hc.1, hc.2⟩
  · have hlab := (eventOn_labels_checkStates f items).1
    have hc := counts_of_labelsOf_eq hlab
    exact ⟨hlab, hc.1, hc.2⟩

/-- C16: after `itemClickedEvent` on the top-level item at `r`, whose group is `g`, the
other groups are as before, the group keeps its label, its state and its selected flag,
and its leaves keep their number, labels and selected flags; every leaf has the state of
the group when that is `Checked` or `Unchecked`, and the leaves are unchanged when it is
`PartiallyChecked`. -/
theorem itemClickedEvent_group_cascade (f : Forest) (r : Nat) (g : Group)
    (hg : f[r]? = some g) :
    (itemClickedEvent f (.top r)).length = f.length ∧
    (∀ s, s ≠ r → (itemClickedEvent f (.top r))[s]? = f[s]?) ∧
    ∃ g2, (itemClickedEvent f (.top r))[r]? = some g2 ∧
      g2.text = g.text ∧ g2.checkState = g.checkState ∧ g2.selected = g.selected ∧
      g2.children.length = g.children.length ∧
      g2.children.map (fun l => l.text) = g.children.map (fun l => l.text) ∧
      g2.children.map (fun l => l.selected) = g.children.map (fun l => l.selected) ∧
      (g.checkState = .Checked → ∀ l ∈ g2.children, l.checkState = .Checked) ∧
      (g.checkState = .Unchecked → ∀ l ∈ g2.children, l.checkState = .Unchecked) ∧
      (g.checkState = .PartiallyChecked → g2.children = g.children) := by
  unfold itemClickedEvent
  refine ⟨modifyTop_length _ _ _, fun s hs => modifyTop_getElem?_ne _ (Ne.symm hs),
    _, modifyTop_getElem?_self _ hg, rfl, rfl, rfl, ?_, ?_, ?_, ?_, ?_, ?_⟩
  · simp
  · simp only [List.map_map]
    apply List.map_congr_left
    intro c _
    simp only [Function.comp]
    split
    · rfl
    · split <;> rfl
  · simp only [List.map_map]
    apply List.map_congr_left
    intro c _
    simp only [Function.comp]
    split
    · rfl
    · split <;> rfl
  · intro hc l hl
    simp only [hc, if_true, List.mem_map] at hl
    obtain ⟨x, -, rfl⟩ := hl
    rfl
  · intro hc l hl
    simp only [hc, if_true, List.mem_map, reduceCtorEq, if_false] at hl
    obtain ⟨x, -, rfl⟩ := hl
    rfl
  · intro hc
    simp only [hc, reduceCtorEq, if_false, List.map_id']

/-- Instance of C16 on the partially checked group and, by evaluation, on the checked
group of the example forest. -/
theorem itemClickedEvent_group_cascade_witness :
    ((itemClickedEvent scenarioTriState (.top 0)).length = scenarioTriState.length ∧
      (∀ s, s ≠ 0 → (itemClickedEvent scenarioTriState (.top 0))[s]? = scenarioTriState[s]?) ∧
      ∃ g2, (itemClickedEvent scenarioTriState (.top 0))[0]? = some g2 ∧
        g2.text = scenarioPartialGroup.text ∧
        g2.checkState = scenarioPartialGroup.checkState ∧
        g2.selected = scenarioPartialGroup.selected ∧
        g2.children.length = scenarioPartialGroup.children.length ∧
        g2.children.map (fun l => l.text) =
          scenarioPartialGroup.children.map (fun l => l.text) ∧
        g2.children.map (fun l => l.selected) =
          scenarioPartialGroup.children.map (fun l => l.selected) ∧
        (scenarioPartialGroup.checkState = .Checked →
          ∀ l ∈ g2.children, l.checkState = .Checked) ∧
        (scenarioPartialGroup.checkState = .Unchecked →
          ∀ l ∈ g2.children, l.checkState = .Unchecked) ∧
        (scenarioPartialGroup.checkState = .PartiallyChecked →
          g2.children = scenarioPartialGroup.children)) ∧
    itemClickedEvent scenarioTriState (.top 0) = scenarioTriState ∧
    itemClickedEvent scenarioMixed (.top 0) =
      [{ text := "G0", checkState := .Checked, selected := false,
         children := [{ text := "L0", checkState := .Checked, selected := false },
                      { text := "L1", checkState := .Checked, selected := false },
                      { text := "L2", checkState := .Checked, selected := false }] }] :=
  ⟨itemClickedEvent_group_cascade scenarioTriState 0 scenarioPartialGroup rfl,
    rfl, rfl⟩

/-- C17: the descending ordering returns a permutation of the input in which every element
stands before the later ones in the reverse lexicographic order, and the list is the
reversal of what the ascending ordering returns. -/
theorem getSortedIndexs_descending_reverse (f : Forest) (indexs : List Index) :
    ∃ res asc, getSortedIndexs f .DESCENDING indexs = some res ∧
      getSortedIndexs f .ASCENDING indexs = some asc ∧
      res.Perm indexs ∧
      List.Chain' (fun a b => lexLe b a) res ∧
      List.Pairwise (fun a b => lexLe b a) res ∧
      res = asc.reverse := by
  refine ⟨stdSort descLess indexs, stdSort ascLess indexs, rfl, rfl, stdSort_perm _ _,
    List.Pairwise.chain' (stdSort_descLess_pairwise indexs), stdSort_descLess_pairwise _, ?_⟩
  symm
  apply stdSort_descLess_unique
  · exact (List.reverse_perm _).trans (stdSort_perm ascLess indexs)
  · rw [List.pairwise_reverse]
    exact stdSort_ascLess_pairwise indexs

/-- Instance of C17 on an input with a repeated coordinate and a marker. -/
theorem getSortedIndexs_descending_reverse_witness :
    (∃ res asc, getSortedIndexs scenarioTwoGroups .DESCENDING
        [Index.mk 1 0, Index.mk 0 1, Index.mk 0 (-1), Index.mk 0 1] = some res ∧
      getSortedIndexs scenarioTwoGroups .ASCENDING
        [Index.mk 1 0, Index.mk 0 1, Index.mk 0 (-1), Index.mk 0 1] = some asc ∧
      res.Perm [Index.mk 1 0, Index.mk 0 1, Index.mk 0 (-1), Index.mk 0 1] ∧
      List.Chain' (fun a b => lexLe b a) res ∧
      List.Pairwise (fun a b => lexLe b a) res ∧
      res = asc.reverse) ∧
    getSortedIndexs scenarioTwoGroups .DESCENDING
        [Index.mk 1 0, Index.mk 0 1, Index.mk 0 (-1), Index.mk 0 1] =
      some [Index.mk 1 0, Index.mk 0 1, Index.mk 0 1, Index.mk 0 (-1)] :=
  ⟨getSortedIndexs_descending_reverse scenarioTwoGroups
      [Index.mk 1 0, Index.mk 0 1, Index.mk 0 (-1), Index.mk 0 1], by decide⟩

/-- C18: `getAllIndexs` lists exactly the valid coordinates, without repetition and in
strictly increasing lexicographic order, so the ascending ordering returns it unchanged;
`getCheckedIndexs` is the sublist of it of the coordinates whose leaf is checked. -/
theorem getAllIndexs_lists_valid_coordinates (f : Forest) :
    (∀ c : Index, c ∈ getAllIndexs f ↔ indexIsValid f c = some true) ∧
    (getAllIndexs f).Nodup ∧
    List.Pairwise lexLt (getAllIndexs f) ∧
    List.Chain' lexLt (getAllIndexs f) ∧
    getSortedIndexs f .ASCENDING (getAllIndexs f) = some (getAllIndexs f) ∧
    getCheckedIndexs f = (getAllIndexs f).filter (leafCheckedAt f) ∧
    (getCheckedIndexs f).Sublist (getAllIndexs f) := by
  have hp := getAllIndexs_pairwise_lexLt f
  refine ⟨mem_getAllIndexs f, ?_, hp, List.Pairwise.chain' hp, ?_,
    getCheckedIndexs_eq_filter f, ?_⟩
  · haveI : IsIrrefl Index lexLt := ⟨lexLt_irrefl⟩
    exact hp.nodup
  · unfold getSortedIndexs stdSort
    simp only
    rw [List.Sorted.insertionSort_eq]
    exact List.Pairwise.imp
      (fun hab => (ascLess_eq_false_iff _ _).mpr (lexLe_of_lexLt hab)) hp
  · rw [getCheckedIndexs_eq_filter]
    exact List.filter_sublist _

/-- Instance of C18 on the forest with one unchecked leaf among three. -/
theorem getAllIndexs_lists_valid_coordinates_witness :
    ((∀ c : Index, c ∈ getAllIndexs scenarioMixed ↔ indexIsValid scenarioMixed c = some true) ∧
      (getAllIndexs scenarioMixed).Nodup ∧
      List.Pairwise lexLt (getAllIndexs scenarioMixed) ∧
      List.Chain' lexLt (getAllIndexs scenarioMixed) ∧
      getSortedIndexs scenarioMixed .ASCENDING (getAllIndexs scenarioMixed) =
        some (getAllIndexs scenarioMixed) ∧
      getCheckedIndexs scenarioMixed =
        (getAllIndexs scenarioMixed).filter (leafCheckedAt scenarioMixed) ∧
      (getCheckedIndexs scenarioMixed).Sublist (getAllIndexs scenarioMixed)) ∧
    getAllIndexs scenarioMixed = [Index.mk 0 0, Index.mk 0 1, Index.mk 0 2] ∧
    getCheckedIndexs scenarioMixed = [Index.mk 0 0, Index.mk 0 1] :=
  ⟨getAllIndexs_lists_valid_coordinates scenarioMixed, by decide, by decide⟩

/-- C19: for a duplicate-free input whose leaf coordinates are valid and whose markers
`(row, -1)` have their row inside the forest, the parent-first ordering returns a list
without a marker, of valid coordinates only, and without repetition. -/
theorem getSortedIndexs_parentFirst_valid_nodup (f : Forest) (indexs : List Index)
    (hnd : indexs.Nodup)
    (hleaf : ∀ i ∈ indexs, i.col ≠ -1 → indexIsValid f i = some true)
    (hmark : ∀ i ∈ indexs, i.col = -1 → 0 ≤ i.row ∧ i.row < groupCount f) :
    ∃ res, getSortedIndexs f .PARENTFIRST indexs = some res ∧
      (∀ x ∈ res, x.col ≠ -1) ∧
      (∀ x ∈ res, indexIsValid f x = some true) ∧
      res.Nodup := by
  have hres : getSortedIndexs f .PARENTFIRST indexs =
      some (indexs.flatMap (parentFirstBlock f indexs)) := by
    have := foldlM_parentFirstStep f indexs indexs [] hmark
    simpa [getSortedIndexs] using this
  have hvalid : ∀ x ∈ indexs.flatMap (parentFirstBlock f indexs),
      indexIsValid f x = some true := by
    intro x hx
    obtain ⟨i, hi, hxi⟩ := List.mem_flatMap.mp hx
    rcases (mem_parentFirstBlock f indexs i x).mp hxi with ⟨hc, -, rfl⟩ | ⟨hc, hrow, h0, hlt⟩
    · exact hleaf x hi hc
    · obtain ⟨hr0, hr1⟩ := hmark i hi hc
      rw [indexIsValid_eq]
      simp only [Option.some.injEq, decide_eq_true_eq]
      rw [hrow]
      exact ⟨hr0, hr1, h0, hlt⟩
  refine ⟨_, hres, ?_, hvalid, ?_⟩
  · intro x hx hcol
    have hv := hvalid x hx
    rw [indexIsValid_eq] at hv
    simp only [Option.some.injEq, decide_eq_true_eq] at hv
    omega
  · rw [List.nodup_flatMap]
    refine ⟨fun i _ => parentFirstBlock_nodup f indexs i, ?_⟩
    apply hnd.pairwise_of_forall_ne
    intro i hi j hj hij
    simp only [Function.onFun]
    rw [List.disjoint_left]
    intro x hxi hxj
    rcases (mem_parentFirstBlock f indexs i x).mp hxi with ⟨hci, hmi, rfl⟩ | ⟨hci, hri, -, -⟩
    · rcases (mem_parentFirstBlock f indexs j x).mp hxj with ⟨-, -, rfl⟩ | ⟨hcj, hrj, -, -⟩
      · exact hij rfl
      · apply hmi
        have : j = Index.mk x.row (-1) := by
          cases j
          simp only [Index.mk.injEq] at *
          exact ⟨hrj.symm, hcj⟩
        rw [← this]
        exact hj
    · rcases (mem_parentFirstBlock f indexs j x).mp hxj with ⟨-, hmj, rfl⟩ | ⟨hcj, hrj, -, -⟩
      · apply hmj
        have : i = Index.mk x.row (-1) := by
          cases i
          simp only [Index.mk.injEq] at *
          exact ⟨hri.symm, hci⟩
        rw [← this]
        exact hi
      · apply hij
        cases i
        cases j
        simp only [Index.mk.injEq] at *
        omega

/-- Instance of C19 with a marker for group 0, a leaf of group 0 and a leaf of group 1. -/
theorem getSortedIndexs_parentFirst_valid_nodup_witness :
    ∃ res, getSortedIndexs scenarioTwoGroups .PARENTFIRST
        [Index.mk 0 (-1), Index.mk 0 1, Index.mk 1 0] = some res ∧
      (∀ x ∈ res, x.col ≠ -1) ∧
      (∀ x ∈ res, indexIsValid scenarioTwoGroups x = some true) ∧
      res.Nodup :=
  getSortedIndexs_parentFirst_valid_nodup scenarioTwoGroups
    [Index.mk 0 (-1), Index.mk 0 1, Index.mk 1 0] (by decide) (by decide) (by decide)

/-- C20: `removeItem` does not undo `addItem`. On the empty forest, insertion at `(-1, -1)`
followed by removal at `(0, 0)` leaves two top-level items; on the forest of two groups,
insertion at `(0, 0)` followed by removal at `(0, 0)` takes the former first leaf L0 out of
group 0 and keeps the new top-level item, and insertion at `(0, 5)` followed by removal at
`(0, 2)` keeps the new top-level item. -/
theorem removeItem_after_addItem_scenario :
    (addItem [] (Index.mk (-1) (-1)) "G1" "L1" false).bind
        (fun f => removeItem f (Index.mk 0 0)) =
      some [checkedItem "G1", checkedItem "L1"] ∧
    (addItem scenarioTwoGroups (Index.mk 0 0) "G" "L" false).bind
        (fun f => removeItem f (Index.mk 0 0)) =
      some [{ text := "G0", checkState := .Checked, selected := false,
              children := [{ text := "L1", checkState := .Checked, selected := false }] },
            { text := "G1", checkState := .Checked, selected := false,
              children := [{ text := "L2", checkState := .Checked, selected := false }] },
            checkedItem "L"] ∧
    (addItem scenarioTwoGroups (Index.mk 0 5) "G" "L" false).bind
        (fun f => removeItem f (Index.mk 0 2)) =
      some (scenarioTwoGroups ++ [checkedItem "L"]) :=
  ⟨rfl, rfl, rfl⟩

end CustomTree

end ct
